import Mathlib

/-!
Shallow embedding of the SRE runtime Reader/Retriever core
(lexical index, fuzzy neighborhood, phrase search, TF-IDF and hybrid
rankers, retrieval budgeting, merge-dedupe, prompt assembly, artifact
loading), translated from the TypeScript sources, together with proofs
of the specification claims about it.

Numbers: JavaScript numbers are IEEE-754 doubles; scores are modelled
as real numbers (the formulas of the spec are over the reals), exact
integer arithmetic (character counts, 32-bit hashes) as Nat/Int with
explicit wrapping, and the demo hash value as a rational (its inputs
are small integers on which doubles are exact).

Maps and Sets of JavaScript are insertion-ordered; they are modelled
as lists deduplicated on first occurrence (for key order) with
last-write-wins lookup for Map.set overwrites.
-/

namespace SRE

/-- JS String.prototype.toLowerCase restricted to ASCII: A-Z map to a-z.
The tokenizer only keeps [a-z0-9] afterwards, and the spec fixes
"No locale dependence beyond ASCII case-folding". -/
def lowerChar (c : Char) : Char :=
  if 'A' ≤ c ∧ c ≤ 'Z' then Char.ofNat (c.toNat + 32) else c

/-- Character class [a-z0-9] of the tokenizer regexes (after lowercasing). -/
def isAlnum (c : Char) : Bool :=
  ('a' ≤ c && c ≤ 'z') || ('0' ≤ c && c ≤ '9')

/-- One left-to-right pass splitting a lowercased character list into
its maximal alphanumeric runs; acc holds the current run reversed. -/
def alnumRunsAux : List Char → List Char → List (List Char)
  | [], acc => if acc.isEmpty then [] else [acc.reverse]
  | c :: rest, acc =>
    if isAlnum c then alnumRunsAux rest (c :: acc)
    else if acc.isEmpty then alnumRunsAux rest []
    else acc.reverse :: alnumRunsAux rest []

/-- Maximal runs of alphanumeric characters: the effect of
.replace(nonAlnumRun, ' ') followed by .split(whitespace) and dropping
empties, on an already lowercased character list. -/
def alnumRuns (l : List Char) : List (List Char) :=
  alnumRunsAux l []

/-- lexical-index.ts tokenize: lowercase, replace non-alphanumeric runs
with spaces, split on whitespace, drop empties. -/
def tokenize (text : String) : List String :=
  (alnumRuns (text.toList.map lowerChar)).map List.asString

/-- phrase-search.ts normalizePhrase: lowercase, non-alphanumeric runs
to single spaces, collapse spaces, trim.  Realised on characters: the
lowercased text's alphanumeric runs joined by single spaces (replacing
each separator run by one space and trimming the ends). -/
def normalizePhrase (phrase : String) : String :=
  (List.intercalate [' '] (alnumRuns (phrase.toList.map lowerChar))).asString

/-- Leftmost index at which needle occurs in hay (String.prototype.indexOf
on the already-normalized text); none when absent.  An empty needle
matches at 0, as in JS. -/
def indexOfList (hay needle : List Char) : Option Nat :=
  if needle.isPrefixOf hay then some 0
  else
    match hay with
    | [] => none
    | _ :: t => (indexOfList t needle).map (· + 1)

/-- JS String.prototype.includes via indexOf. -/
def includesList (hay needle : List Char) : Bool :=
  (indexOfList hay needle).isSome

/-- The indexOf loop of findPhraseMatches as a left-to-right scan: at
each position either skip (inside the previous match), or record a
match of the needle (head n, tail ns) and skip its remaining ns.length
characters, or advance.  Equivalent to repeated indexOf from
searchStart: non-overlapping matches, leftmost first. -/
def findMatchesScan (n : Char) (ns : List Char) :
    List Char → Nat → Nat → List (Nat × Nat)
  | [], _, _ => []
  | c :: rest, pos, skip =>
    if skip ≠ 0 then findMatchesScan n ns rest (pos + 1) (skip - 1)
    else if (n :: ns).isPrefixOf (c :: rest) then
      (pos, pos + (n :: ns).length) ::
        findMatchesScan n ns rest (pos + 1) ns.length
    else findMatchesScan n ns rest (pos + 1) 0

/-- phrase-search.ts findPhraseMatches: all non-overlapping occurrences
of the normalized phrase in the normalized text, leftmost first, as
(start, end) offsets in the normalized text; empty for an empty
normalized phrase. -/
def findPhraseMatches (text phrase : String) : List (Nat × Nat) :=
  let normalizedText := (normalizePhrase text).toList
  match (normalizePhrase phrase).toList with
  | [] => []
  | n :: ns => findMatchesScan n ns normalizedText 0 0

/-- phrase-search.ts containsAllPhrases: the normalized text includes
every normalized phrase (AND). -/
def containsAllPhrases (text : String) (phrases : List String) : Bool :=
  phrases.all fun phrase =>
    includesList (normalizePhrase text).toList (normalizePhrase phrase).toList

/-- The global scan of the regex extracting "([^"]+)" matches, as a
state machine over the characters (phrase-search.ts parseQuery).  The
second argument is none outside a candidate match and some buf (the
reversed group content so far) after an opening quote.  A closing quote
over a non-empty buffer completes a match: the phrase is emitted and
the whole match becomes one residual space.  A quote over an empty
buffer cannot complete a match (the group needs at least one
character): the regex engine advances one position, so the opening
quote stays literal in the residual and the new quote opens the next
candidate.  Input ending inside a candidate leaves the opening quote
and the buffered characters literal (no closing quote, no match). -/
def scanQueryAux : List Char → Option (List Char) → List String × List Char
  | [], Option.none => ([], [])
  | [], some buf => ([], '"' :: buf.reverse)
  | c :: rest, Option.none =>
    if c = '"' then scanQueryAux rest (some [])
    else
      let p := scanQueryAux rest Option.none
      (p.1, c :: p.2)
  | c :: rest, some buf =>
    if c = '"' then
      if buf.isEmpty then
        let p := scanQueryAux rest (some [])
        (p.1, '"' :: p.2)
      else
        let p := scanQueryAux rest Option.none
        (buf.reverse.asString :: p.1, ' ' :: p.2)
    else scanQueryAux rest (some (c :: buf))

/-- The phrases of a query and its residual with each match replaced by
a space. -/
def scanQuery (l : List Char) : List String × List Char :=
  scanQueryAux l Option.none

/-- Parsed query: quoted phrases plus the tokens of the residual text. -/
structure ParsedQuery where
  phrases : List String
  tokens : List String
deriving DecidableEq

/-- phrase-search.ts parseQuery: extract every "([^"]+)" match as a
phrase, replace the matched regions by spaces, tokenize the rest. -/
def parseQuery (query : String) : ParsedQuery :=
  let s := scanQuery query.toList
  { phrases := s.1, tokens := tokenize s.2.asString }

/-! ### Spans and the inverted index (lexical-index.ts) -/

/-- Span metadata (core/contracts/span.ts). -/
structure SpanMeta where
  order : Nat

/-- One span of the corpus.  The embedding is optional (spans without
one are skipped by semantic scoring). -/
structure Span where
  id : String
  text : String
  meta : SpanMeta
  embedding : Option (List ℝ) := none

/-- The seen-set loop of first-occurrence deduplication. -/
def dedupKeepFirstAux : List String → List String → List String
  | [], _ => []
  | a :: l, seen =>
    if seen.contains a then dedupKeepFirstAux l seen
    else a :: dedupKeepFirstAux l (a :: seen)

/-- First-occurrence deduplication: the element order of a JS Set (or
of Map keys) built by inserting a list in order. -/
def dedupKeepFirst (l : List String) : List String :=
  dedupKeepFirstAux l []

/-- JS Set.add: append unless present (insertion order preserved). -/
def insertUnique (acc : List String) (x : String) : List String :=
  if acc.contains x then acc else acc ++ [x]

/-- Add every element of the second list to the first (Set union loop of
getPostingsWithFuzzy). -/
def listUnionAdd (acc p : List String) : List String :=
  p.foldl insertUnique acc

/-- The inverted index's posting for a token: ids of the spans whose
token list contains it, in span order, deduplicated as the Set built by
the LexicalIndex constructor. -/
def postingList (spans : List Span) (token : String) : List String :=
  dedupKeepFirst
    ((spans.filter fun s => (tokenize s.text).contains token).map Span.id)

/-- LexicalIndex.getDocumentFrequency: the posting's size (0 if the
token is absent). -/
def documentFrequency (spans : List Span) (token : String) : Nat :=
  (postingList spans token).length

/-- LexicalIndex.getTotalDocuments. -/
def totalDocuments (spans : List Span) : Nat :=
  spans.length

/-- LexicalIndex.getVocabulary: the index's key set, i.e. every token of
every span, keyed by first occurrence. -/
def vocabulary (spans : List Span) : List String :=
  dedupKeepFirst (spans.flatMap fun s => tokenize s.text)

/-! ### Fuzzy neighborhood (fuzzy-match.ts) -/

/-- The alphabet [a-z0-9] used for edits. -/
def fuzzyAlphabet : List Char :=
  "abcdefghijklmnopqrstuvwxyz0123456789".toList

/-- fuzzy-match.ts generateOneEditNeighborhood: all deletions, then all
substitutions (skipping the same character), then all insertions
(including both ends), in that order; duplicates tolerated. -/
def generateOneEditNeighborhood (token : String) : List String :=
  let cs := token.toList
  let n := cs.length
  let deletes := (List.range n).map fun i =>
    (cs.take i ++ cs.drop (i + 1)).asString
  let substitutes := (List.range n).flatMap fun i =>
    (fuzzyAlphabet.filter fun ch => ch ≠ cs.getD i ' ').map fun ch =>
      (cs.take i ++ ch :: cs.drop (i + 1)).asString
  let inserts := (List.range (n + 1)).flatMap fun i =>
    fuzzyAlphabet.map fun ch => (cs.take i ++ ch :: cs.drop i).asString
  deletes ++ substitutes ++ inserts

/-- fuzzy-match.ts findFuzzyCandidates: intersect the neighborhood with
the vocabulary, deduplicate, sort lexicographically, truncate.  The
deduplicated list has no duplicates, so any correct sort yields the
same list as Array.prototype.sort; insertion sort keeps the model
kernel-computable. -/
def findFuzzyCandidates (token : String) (vocab : List String)
    (maxCandidates : Nat) : List String :=
  let neighborhood := generateOneEditNeighborhood token
  let validCandidates := dedupKeepFirst (neighborhood.filter vocab.contains)
  let sorted := validCandidates.insertionSort fun a b => a ≤ b
  sorted.take maxCandidates

/-- Fuzzy options (lexical-index.ts FuzzyOptions); every field optional,
defaults applied at use sites exactly as the destructuring does. -/
structure FuzzyOptions where
  enabled : Option Bool := none
  maxEdits : Option Int := none
  dfThreshold : Option Nat := none
  minTokenLen : Option Nat := none
  maxCandidatesPerToken : Option Nat := none

/-- LexicalIndex.isFuzzyEligible: maxEdits must be exactly 1, token long
enough, and document frequency strictly below the threshold. -/
def isFuzzyEligible (spans : List Span) (token : String)
    (fuzzyOptions : FuzzyOptions) : Bool :=
  let minTokenLen := fuzzyOptions.minTokenLen.getD 4
  let dfThreshold := fuzzyOptions.dfThreshold.getD 5
  let maxEdits := fuzzyOptions.maxEdits.getD 1
  if maxEdits ≠ 1 then false
  else if token.length < minTokenLen then false
  else if documentFrequency spans token ≥ dfThreshold then false
  else true

/-- LexicalIndex.getPostingsWithFuzzy: exact posting, unioned (when
fuzzy is enabled and the token eligible) with each fuzzy candidate's
posting; usedFuzzy records that at least one candidate existed. -/
def getPostingsWithFuzzy (spans : List Span) (token : String)
    (fuzzyOptions : Option FuzzyOptions) : List String × Bool :=
  let exactPostings := postingList spans token
  match fuzzyOptions with
  | some fo =>
    if fo.enabled.getD false && isFuzzyEligible spans token fo then
      let maxCandidatesPerToken := fo.maxCandidatesPerToken.getD 50
      let fuzzyCandidates :=
        findFuzzyCandidates token (vocabulary spans) maxCandidatesPerToken
      let spanIds := fuzzyCandidates.foldl
        (fun acc c => listUnionAdd acc (postingList spans c)) exactPostings
      (spanIds, !fuzzyCandidates.isEmpty)
    else (exactPostings, false)
  | none => (exactPostings, false)

/-! ### searchWithHits (lexical-index.ts) -/

/-- A token hit; fuzzy is emitted as true exactly when the token reached
the span only through fuzzy expansion. -/
structure TokenHit where
  term : String
  fuzzy : Bool := false
deriving DecidableEq

/-- A phrase hit with its non-overlapping match ranges (start, end). -/
structure PhraseHit where
  phrase : String
  ranges : List (Nat × Nat)
deriving DecidableEq

/-- Hit annotations of a search result. -/
structure SearchHits where
  tokens : List TokenHit
  phrases : List PhraseHit
deriving DecidableEq

/-- A search result (core/contracts/search-hit.ts); score is a JS
number, modelled as a real. -/
structure SearchResult where
  id : String
  order : Nat
  score : ℝ
  hits : SearchHits

/-- Map from span id to span, built by Map.set over the span list (a
duplicated id keeps the last span). -/
def spanById (spans : List Span) (id : String) : Option Span :=
  (spans.filter fun s => s.id = id).getLast?

/-- The candidate-id block of searchWithHits: with tokens, intersect the
per-token (possibly fuzzy-expanded) postings left to right; with only
phrases, prefilter by the posting of the first word of the first
phrase. -/
def searchCandidateIds (spans : List Span) (parsed : ParsedQuery)
    (fuzzyOptions : Option FuzzyOptions) : List String :=
  if !parsed.tokens.isEmpty then
    match parsed.tokens.map
        (fun t => (getPostingsWithFuzzy spans t fuzzyOptions).1) with
    | [] => []
    | p :: ps => ps.foldl (fun acc q => acc.filter q.contains) p
  else
    match parsed.phrases with
    | [] => []
    | firstPhrase :: _ =>
      match tokenize firstPhrase with
      | [] => []
      | firstWord :: _ => postingList spans firstWord

/-- The per-candidate body of searchWithHits: drop unknown ids, filter
by the phrase requirements, annotate token and phrase hits, emit the
result with placeholder score 0. -/
def emitResult (spans : List Span) (parsed : ParsedQuery)
    (fuzzyUsed : String → Bool) (spanId : String) : Option SearchResult :=
  match spanById spans spanId with
  | none => none
  | some span =>
    if !parsed.phrases.isEmpty &&
        !containsAllPhrases span.text parsed.phrases then none
    else
      let spanTokens := tokenize span.text
      let tokenHits :=
        (parsed.tokens.filter fun t => spanTokens.contains t || fuzzyUsed t).map
          fun t =>
            { term := t, fuzzy := fuzzyUsed t && !spanTokens.contains t }
      let phraseHits := parsed.phrases.map fun p =>
        { phrase := p, ranges := findPhraseMatches span.text p }
      some { id := span.id, order := span.meta.order, score := 0,
             hits := { tokens := tokenHits, phrases := phraseHits } }

/-- LexicalIndex.searchWithHits.  The emission loop pushes passing
candidates in order and breaks once limit results exist, so it equals
the passing list truncated to the limit. -/
def searchWithHits (spans : List Span) (query : String) (limit : Option Nat)
    (fuzzyOptions : Option FuzzyOptions) : List SearchResult :=
  let parsed := parseQuery query
  if parsed.phrases.isEmpty && parsed.tokens.isEmpty then []
  else
    let fuzzyUsed := fun t => (getPostingsWithFuzzy spans t fuzzyOptions).2
    let candidateIds := searchCandidateIds spans parsed fuzzyOptions
    let results := candidateIds.filterMap (emitResult spans parsed fuzzyUsed)
    match limit with
    | none => results
    | some l => results.take l

/-! ### TF-IDF ranker (rank-tfidf.ts), cache disabled

The optional LRU TF cache only memoizes computeTF per span id; with the
cache off (the Reader's default) every lookup recomputes, which is what
is modelled here.  The cached value equals the recomputed one, so the
claims below are insensitive to it. -/

/-- computeTF's term frequency map as a total function: Map.get(token)
?? 0, i.e. 1 + log(count) for tokens that occur, 0 otherwise. -/
noncomputable def tfWeight (spanTokens : List String) (token : String) : ℝ :=
  let count := spanTokens.count token
  if count = 0 then 0 else 1 + Real.log count

/-- The IDF of a query token: log(N / (1 + df)), from the index. -/
noncomputable def idfWeight (spans : List Span) (token : String) : ℝ :=
  Real.log ((totalDocuments spans : ℝ) / (1 + (documentFrequency spans token : ℝ)))

/-- The scoring body of TFIDFRanker.rankWithHits for one result:
accumulate tf·idf over the query tokens in order, divide by
sqrt(docLength), add the phrase boost min(0.3, phraseCount ·
phraseBoost) where phraseCount is the number of phrase-hit entries. -/
noncomputable def tfidfScore (spans : List Span) (queryTokens : List String)
    (phraseBoost : ℝ) (span : Span) (result : SearchResult) : ℝ :=
  let spanTokens := tokenize span.text
  let base := queryTokens.foldl
    (fun s t => s + tfWeight spanTokens t * idfWeight spans t) 0
  let lengthNormalized := base / Real.sqrt (spanTokens.length : ℝ)
  let phraseCount := result.hits.phrases.length
  lengthNormalized + min 0.3 ((phraseCount : ℝ) * phraseBoost)

/-- TFIDFRanker.rankWithHits: score every result whose span exists
(silently dropping unknown ids), preserving input order; sorting is the
Reader's responsibility. -/
noncomputable def tfidfRankWithHits (spans : List Span)
    (results : List SearchResult) (queryTokens : List String)
    (phraseBoost : ℝ) : List SearchResult :=
  results.filterMap fun result =>
    (spanById spans result.id).map fun span =>
      { result with score := tfidfScore spans queryTokens phraseBoost span result }

/-! ### Mini-embedder (core/embed/mini-embedder.ts is not in the
repository snapshot; demo/retrieval/demo.js carries the same algorithm
and §4.5 of the spec fixes it) -/

/-- UTF-16 code units of a string (String.prototype.charCodeAt):
characters beyond the BMP split into a surrogate pair. -/
def utf16CodeUnits (s : String) : List Nat :=
  s.toList.flatMap fun c =>
    let n := c.toNat
    if n < 0x10000 then [n]
    else [0xD800 + (n - 0x10000) / 0x400, 0xDC00 + (n - 0x10000) % 0x400]

/-- JS ToInt32: wrap into the signed 32-bit range (the effect of
hash & hash, and of the << shift's operand conversion). -/
def toInt32 (x : Int) : Int :=
  (x + 2 ^ 31) % 2 ^ 32 - 2 ^ 31

/-- One step of the rolling hash: hash = (hash << 5) - hash + char,
coerced to a 32-bit integer.  The intermediate double arithmetic is
exact (all values are far below 2^53). -/
def hashStep (hash : Int) (char : Nat) : Int :=
  toInt32 (toInt32 (hash * 32) - hash + char)

/-- demo.js deterministicHash, hash accumulation part: the 32-bit
rolling hash of "{str}:{dim}" over its UTF-16 code units. -/
def deterministicHash32 (str : String) (dim : Nat) : Int :=
  (utf16CodeUnits (str ++ ":" ++ toString dim)).foldl hashStep 0

/-- demo.js deterministicHash, final mapping: (hash % 10000) / 5000 - 1
with the JS remainder (sign of the dividend).  The quotient of two
small exact integers is modelled as a rational. -/
def deterministicHashValue (str : String) (dim : Nat) : ℚ :=
  (Int.tmod (deterministicHash32 str dim) 10000 : ℚ) / 5000 - 1

/-- Modelled from the spec: core/embed/mini-embedder.ts embedText is
absent from the snapshot; §4.5 fixes it as: tokenize, zero vector for
no tokens, per-dimension hash value (hash mod 10000)/5000 − 1 from the
32-bit rolling hash of "{token}:{d}" (the demo's deterministicHash),
average per-token vectors component-wise, L2-normalize, zero vector
when the magnitude is 0. -/
noncomputable def embedText (text : String) : List ℝ :=
  let tokens := tokenize text
  if tokens = [] then List.replicate 128 (0 : ℝ)
  else
    let avg := (List.range 128).map fun d =>
      (tokens.map fun t => ((deterministicHashValue t d : ℚ) : ℝ)).sum /
        (tokens.length : ℝ)
    let norm := Real.sqrt (avg.map fun x => x ^ 2).sum
    if norm = 0 then List.replicate 128 (0 : ℝ)
    else avg.map fun x => x / norm

/-- Modelled from the spec: core/embed/mini-embedder.ts cosineSimilarity
is absent from the snapshot; §4.5 fixes it as the dot product, throwing
(DimensionMismatch, treated as InvalidArgument) on unequal lengths. -/
noncomputable def cosineSimilarity (u v : List ℝ) : Except String ℝ :=
  if u.length ≠ v.length then .error "Dimension mismatch"
  else .ok ((u.zip v).map fun p => p.1 * p.2).sum

/-- Last-write-wins association-list lookup: a JS Map as built by
repeated Map.set. -/
noncomputable def mapLookup (entries : List (String × ℝ)) (key : String) :
    Option ℝ :=
  ((entries.filter fun e => e.1 = key).getLast?).map Prod.snd

/-- One iteration of SemanticRanker.scoreByCosineSimilarity's loop:
skip an unknown id, skip a span without (or with an empty) embedding,
otherwise score by cosine similarity (a dimension mismatch propagates
as the thrown error). -/
noncomputable def cosineScoreStep (spans : List Span)
    (queryEmbedding : List ℝ) (scores : List (String × ℝ))
    (spanId : String) : Except String (List (String × ℝ)) :=
  match spanById spans spanId with
  | none => .ok scores
  | some span =>
    match span.embedding with
    | none => .ok scores
    | some embedding =>
      if embedding.isEmpty then .ok scores
      else do
        let similarity ← cosineSimilarity queryEmbedding embedding
        .ok (scores ++ [(spanId, similarity)])

/-- SemanticRanker.scoreByCosineSimilarity (rank-semantic.ts): the loop
over the candidate ids, accumulating the score map. -/
noncomputable def scoreByCosineSimilarity (spans : List Span)
    (spanIds : List String) (queryEmbedding : List ℝ) :
    Except String (List (String × ℝ)) :=
  spanIds.foldlM (cosineScoreStep spans queryEmbedding) []

/-- Options for hybrid ranking (rank-hybrid.ts HybridOptions). -/
structure HybridOptions where
  weightLexical : Option ℝ := none
  weightSemantic : Option ℝ := none
  normalize : Option Bool := none

open Classical in
/-- HybridRanker.normalizeScores: min-max normalization of a score map;
all entries map to 1.0 when max = min; the empty map stays empty. -/
noncomputable def normalizeScores (scores : List (String × ℝ)) :
    List (String × ℝ) :=
  match scores with
  | [] => []
  | e :: rest =>
    let minV := rest.foldl (fun a p => Min.min a p.2) e.2
    let maxV := rest.foldl (fun a p => Max.max a p.2) e.2
    if maxV = minV then (e :: rest).map fun p => (p.1, (1 : ℝ))
    else (e :: rest).map fun p => (p.1, (p.2 - minV) / (maxV - minV))

open Classical in
/-- HybridRanker.rankWithHits: validate the weights first (throwing
InvalidArgument synchronously, before any scoring), then fuse the
TF-IDF scores and the cosine scores, optionally min-max normalized,
into score = lexical·weightLexical + semantic·weightSemantic with
missing values as 0; results keep their input order. -/
noncomputable def hybridRankWithHits (spans : List Span)
    (results : List SearchResult) (queryTokens : List String)
    (queryEmbedding : List ℝ) (options : HybridOptions) :
    Except String (List SearchResult) :=
  let weightLexical := options.weightLexical.getD 0.7
  let weightSemantic := options.weightSemantic.getD 0.3
  let normalize := options.normalize.getD true
  if weightLexical < 0 ∨ weightSemantic < 0 then
    .error "Weights must be non-negative"
  else if weightLexical + weightSemantic > 1 then
    .error "Weight sum cannot exceed 1.0"
  else if results.isEmpty then .ok []
  else do
    let tfidfResults := tfidfRankWithHits spans results queryTokens 0.1
    let tfidfScores := tfidfResults.map fun r => (r.id, r.score)
    let semanticScores ←
      scoreByCosineSimilarity spans (results.map (·.id)) queryEmbedding
    let tfidfNormalized :=
      if normalize then normalizeScores tfidfScores else tfidfScores
    let semanticNormalized :=
      if normalize then normalizeScores semanticScores else semanticScores
    .ok (results.map fun result =>
      let tfidf := (mapLookup tfidfNormalized result.id).getD 0
      let semantic := (mapLookup semanticNormalized result.id).getD 0
      { result with
          score := tfidf * weightLexical + semantic * weightSemantic })

/-! ### Reader.search (runtime/api Reader) -/

/-- The rank option of Reader.search; an absent option behaves as
'none' (only the 'tfidf' and 'hybrid' literals are tested for). -/
inductive RankMode where
  | none
  | tfidf
  | hybrid
deriving DecidableEq

/-- Options of Reader.search. -/
structure SearchOptions where
  limit : Option Nat := Option.none
  rank : RankMode := RankMode.none
  fuzzy : Option FuzzyOptions := Option.none
  hybrid : HybridOptions := {}

/-- The Reader's orderedSpans: the loaded spans sorted by meta.order
(stable, as Array.prototype.sort). -/
def orderedSpans (spans : List Span) : List Span :=
  spans.mergeSort fun a b => a.meta.order ≤ b.meta.order

open Classical in
/-- The ranked-sort comparator of Reader.search as a total preorder:
a may precede b when its score is higher, or equal with a.order ≤
b.order (comparator (a, b) => b.score - a.score, ties a.order -
b.order). -/
noncomputable def scoreDescLe (a b : SearchResult) : Bool :=
  decide (b.score < a.score ∨ (a.score = b.score ∧ a.order ≤ b.order))

/-- The unranked comparator of Reader.search: ascending document
order. -/
def orderAscLe (a b : SearchResult) : Bool :=
  a.order ≤ b.order

/-- Truncation by an optional limit (applied after ranking). -/
def takeOpt (limit : Option Nat) (l : List SearchResult) : List SearchResult :=
  match limit with
  | Option.none => l
  | some n => l.take n

/-- Reader.search: build the lexical index over orderedSpans, run
searchWithHits (passing the caller's limit only when not ranking), rank
if requested, sort (score descending with order-ascending ties when
ranked, order ascending otherwise), and truncate to the limit after
ranking.  The hybrid path can throw (invalid weights, dimension
mismatch), hence the Except. -/
noncomputable def readerSearch (spans : List Span) (query : String)
    (options : SearchOptions) : Except String (List SearchResult) :=
  let ordered := orderedSpans spans
  let limitAtSearch :=
    if options.rank = RankMode.tfidf ∨ options.rank = RankMode.hybrid then
      Option.none
    else options.limit
  let results := searchWithHits ordered query limitAtSearch options.fuzzy
  match options.rank with
  | RankMode.tfidf =>
    let queryTokens := tokenize query
    let ranked := tfidfRankWithHits ordered results queryTokens 0.1
    .ok (takeOpt options.limit (ranked.mergeSort scoreDescLe))
  | RankMode.hybrid => do
    let queryTokens := tokenize query
    let queryEmbedding := embedText query
    let ranked ← hybridRankWithHits ordered results queryTokens
      queryEmbedding options.hybrid
    .ok (takeOpt options.limit (ranked.mergeSort scoreDescLe))
  | RankMode.none =>
    .ok (results.mergeSort orderAscLe)

/-! ### Retrieval packs and the budget (core/contracts/retrieval-pack.ts,
runtime/retrieval/budget.ts) -/

/-- The search hit entry a pack was built from. -/
structure RetrievalPackEntry where
  spanId : String
  order : Nat
  score : ℝ
  headingPath : List String
  hits : Option SearchHits := Option.none

/-- Scope of a pack's expansion. -/
inductive ScopeType where
  | neighbors
  | section
deriving DecidableEq

/-- Scope record: type plus the optional sectionId / order range. -/
structure RetrievalPackScope where
  type : ScopeType
  sectionId : Option String := Option.none
  range : Option (Nat × Nat) := Option.none
deriving DecidableEq

/-- Pack metadata. -/
structure RetrievalPackMeta where
  headingPath : List String
  spanCount : Nat
  charCount : Nat
deriving DecidableEq

/-- A retrieval pack: a context block ready for prompting. -/
structure RetrievalPack where
  packId : String
  entry : RetrievalPackEntry
  scope : RetrievalPackScope
  paragraphIds : List String
  text : String
  meta : RetrievalPackMeta

/-- budget.ts applyBudget's loop: stop at the pack-count limit, stop
before adding any pack whose charCount would push the running total
over maxTokens, otherwise keep the pack and accumulate. -/
def applyBudgetLoop :
    List RetrievalPack → Option Nat → Option Nat → Nat → Nat →
      List RetrievalPack
  | [], _, _, _, _ => []
  | pack :: rest, limit, maxTokens, count, totalChars =>
    if (match limit with
        | some l => decide (count ≥ l)
        | Option.none => false) then
      []
    else if (match maxTokens with
             | some m => decide (totalChars + pack.meta.charCount > m)
             | Option.none => false) then
      []
    else
      pack :: applyBudgetLoop rest limit maxTokens (count + 1)
        (totalChars + pack.meta.charCount)

/-- budget.ts applyBudget. -/
def applyBudget (packs : List RetrievalPack) (limit maxTokens : Option Nat) :
    List RetrievalPack :=
  applyBudgetLoop packs limit maxTokens 0 0

/-! ### Merge-dedupe (runtime/retrieval/merge-dedupe.ts); the
ExpandedContext record is declared in the snapshot-absent expand.ts and
is modelled from its uses in merge-dedupe.ts and the Reader. -/

/-- An expanded context: one search hit widened to a window of
paragraph ids under a pack id. -/
structure ExpandedContext where
  packId : String
  entry : RetrievalPackEntry
  scope : RetrievalPackScope
  paragraphIds : List String
  headingPath : List String

/-- A merged context: one context per unique packId. -/
structure MergedContext where
  packId : String
  entry : RetrievalPackEntry
  scope : RetrievalPackScope
  paragraphIds : List String
  headingPath : List String

/-- Decimal value of a digit run (parseInt base 10). -/
def digitsVal (ds : List Char) : Nat :=
  ds.foldl (fun a c => a * 10 + (c.toNat - '0'.toNat)) 0

/-- The first match of /span:(\d+)/ in a character list: scan for
"span:" followed by at least one digit, and take the maximal digit
run. -/
def spanIdMatchNum : List Char → Option Nat
  | [] => Option.none
  | c :: rest =>
    let tailAfter := (c :: rest).drop 5
    if "span:".toList.isPrefixOf (c :: rest) &&
        (match tailAfter with
         | d :: _ => d.isDigit
         | [] => false) then
      some (digitsVal (tailAfter.takeWhile Char.isDigit))
    else spanIdMatchNum rest

/-- The document order merge-dedupe extracts from a span id
(id.match(/span:(\d+)/); 0 when the id does not match). -/
def spanIdOrder (id : String) : Nat :=
  (spanIdMatchNum id.toList).getD 0

/-- merge-dedupe.ts unionParagraphIds: first-occurrence deduplication
(the seen set) of all ids, then a stable sort by the order parsed from
the span id. -/
def unionParagraphIds (arrays : List (List String)) : List String :=
  (dedupKeepFirst arrays.flatten).mergeSort fun a b =>
    spanIdOrder a ≤ spanIdOrder b

open Classical in
/-- One step of the best-entry fold: a strictly higher score replaces,
an equal score with strictly lower order replaces, anything else keeps
the current best. -/
noncomputable def betterEntry (best : RetrievalPackEntry)
    (cand : RetrievalPackEntry) : RetrievalPackEntry :=
  if cand.score > best.score then cand
  else if cand.score = best.score ∧ cand.order < best.order then cand
  else best

/-- The best-entry selection loop of dedupeAndMerge, starting from the
group's first entry and folding over the whole group. -/
noncomputable def bestEntryOf (g : ExpandedContext)
    (gs : List ExpandedContext) : RetrievalPackEntry :=
  (g :: gs).foldl (fun best ctx => betterEntry best ctx.entry) g.entry

open Classical in
/-- Merge one non-empty group sharing a packId: best entry, union of
paragraph ids, scope and heading path from the best entry's context
(group.find with the non-null assertion; the fallback to the group head
is never taken since the best entry is one of the group's). -/
noncomputable def mergeGroup (packId : String) (group : List ExpandedContext) :
    Option MergedContext :=
  match group with
  | [] => Option.none
  | g :: gs =>
    let bestEntry := bestEntryOf g gs
    let bestContext :=
      (((g :: gs).find? fun ctx => decide (ctx.entry = bestEntry)).getD g)
    some { packId := packId, entry := bestEntry, scope := bestContext.scope,
           paragraphIds := unionParagraphIds ((g :: gs).map (·.paragraphIds)),
           headingPath := bestContext.headingPath }

/-- merge-dedupe.ts dedupeAndMerge: group by packId (Map insertion
order: first occurrence), merge each group. -/
noncomputable def dedupeAndMerge (contexts : List ExpandedContext) :
    List MergedContext :=
  (dedupKeepFirst (contexts.map (·.packId))).filterMap fun pid =>
    mergeGroup pid (contexts.filter fun ctx => ctx.packId = pid)

/-! ### Prompt assembly (rag/assemble-prompt.ts) -/

/-- Prompt style. -/
inductive PromptStyle where
  | qa
  | summarize
deriving DecidableEq

/-- Citation style (declared by the contract; the numeric superscript
style is the only one the assembler implements). -/
inductive CitationStyle where
  | numeric
  | footnote
deriving DecidableEq

/-- Unicode superscript digits used by numeric citations. -/
def superscriptDigits : List Char :=
  ['⁰', '¹', '²', '³', '⁴', '⁵', '⁶', '⁷', '⁸', '⁹']

/-- assemble-prompt.ts toSuperscriptMarker: the decimal digits of num,
each replaced by its superscript, inside square brackets. -/
def toSuperscriptMarker (num : Nat) : String :=
  "[" ++
    ((toString num).toList.map fun d =>
        superscriptDigits.getD (d.toNat - '0'.toNat) '⁰').asString ++
    "]"

/-- assemble-prompt.ts getSystemPrompt. -/
def getSystemPrompt (style : PromptStyle) : String :=
  match style with
  | .qa =>
    "You are a helpful assistant that answers questions based on provided context. " ++
    "Only provide information that is directly supported by the context. " ++
    "Cite your sources using the numbered markers provided (e.g., [¹], [²]). " ++
    "If the context does not contain sufficient information to answer the question, " ++
    "say so clearly rather than making assumptions."
  | .summarize =>
    "You are a helpful assistant that summarizes information from provided context. " ++
    "Create a concise, accurate summary based only on the information in the context. " ++
    "Cite your sources using the numbered markers provided (e.g., [¹], [²]). " ++
    "Do not add information that is not present in the context."

/-- JS String.prototype.length, i.e. UTF-16 code units; the character
count used as the token estimate. -/
def utf16Length (s : String) : Nat :=
  (utf16CodeUnits s).length

/-- assemble-prompt.ts estimateTokens: chars = tokens. -/
def estimateTokens (text : String) : Nat :=
  utf16Length text

/-- Array.prototype.join: the elements separated by sep ("" for the
empty array). -/
def joinSep (sep : String) : List String → String
  | [] => ""
  | [x] => x
  | x :: y :: rest => x ++ sep ++ joinSep sep (y :: rest)

/-- assemble-prompt.ts formatContextBlock: marker line, Doc line,
optional Path line, separator, pack text, joined by newlines. -/
def formatContextBlock (pack : RetrievalPack) (marker docId : String) :
    String :=
  let lines :=
    [marker, "Doc: " ++ docId] ++
    (if pack.meta.headingPath.isEmpty then []
     else ["Path: " ++ joinSep " > " pack.meta.headingPath]) ++
    ["---", pack.text]
  joinSep "\n" lines

/-- A citation entry. -/
structure CitationEntry where
  marker : String
  packId : String
  docId : String
  headingPath : List String
  spanOffsets : Option (List (Nat × Nat)) := Option.none
deriving DecidableEq

/-- assemble-prompt.ts extractSpanOffsets: the flattened phrase-hit
ranges, or none when the entry has no hits or no ranges. -/
def extractSpanOffsets (pack : RetrievalPack) : Option (List (Nat × Nat)) :=
  match pack.entry.hits with
  | Option.none => Option.none
  | some hits =>
    let offsets := hits.phrases.flatMap fun ph => ph.ranges
    if offsets.isEmpty then Option.none else some offsets

/-- System/user prompt pair. -/
structure PromptMessages where
  system : String
  user : String
deriving DecidableEq

/-- The assembled prompt. -/
structure AssembledPrompt where
  prompt : PromptMessages
  citations : List CitationEntry
  tokensEstimated : Nat
deriving DecidableEq

/-- Options of assemblePrompt (optional fields defaulted at
destructuring, as in the source). -/
structure AssemblePromptOptions where
  question : String
  packs : List RetrievalPack
  docId : String
  headroomTokens : Option Nat := Option.none
  style : Option PromptStyle := Option.none
  citationStyle : Option CitationStyle := Option.none

/-- Number.MAX_SAFE_INTEGER, the availableTokens placeholder of
assemble-prompt.ts (no external ceiling). -/
def maxSafeInteger : Int := 2 ^ 53 - 1

/-- The pack loop of assemblePrompt: number packs from 1, format each
block, stop (for good) at the first block whose projected total
exceeds the budget limit, and collect (block, citation) pairs. -/
def assembleAccepted :
    List RetrievalPack → String → Int → Nat → Nat → Nat →
      List (String × CitationEntry)
  | [], _, _, _, _, _ => []
  | pack :: rest, docId, budgetLimit, baseSize, i, totalChars =>
    let marker := toSuperscriptMarker (i + 1)
    let contextBlock := formatContextBlock pack marker docId
    let blockSize := estimateTokens contextBlock
    let projectedTotal : Int := (baseSize + totalChars + blockSize : Nat)
    if projectedTotal > budgetLimit then []
    else
      (contextBlock,
        { marker := marker, packId := pack.packId, docId := docId,
          headingPath := pack.meta.headingPath,
          spanOffsets := extractSpanOffsets pack }) ::
        assembleAccepted rest docId budgetLimit baseSize (i + 1)
          (totalChars + blockSize)

/-- rag/assemble-prompt.ts assemblePrompt: system prompt by style; with
no packs the user prompt is the question alone; otherwise the accepted
packs' citation markers joined by … make the reference line and the
blocks follow, all separated by blank lines. -/
def assemblePrompt (options : AssemblePromptOptions) : AssembledPrompt :=
  let headroomTokens := options.headroomTokens.getD 300
  let style := options.style.getD .qa
  let systemPrompt := getSystemPrompt style
  if options.packs.isEmpty then
    { prompt := { system := systemPrompt, user := options.question },
      citations := [],
      tokensEstimated := estimateTokens (systemPrompt ++ options.question) }
  else
    let baseUserPrompt :=
      options.question ++ "\n\nYou may reference the following context:"
    let baseSize := estimateTokens systemPrompt + estimateTokens baseUserPrompt
    let budgetLimit := maxSafeInteger - headroomTokens
    let accepted :=
      assembleAccepted options.packs options.docId budgetLimit baseSize 0 0
    let contextBlocks := accepted.map Prod.fst
    let citations := accepted.map Prod.snd
    let markerList := joinSep "…" (citations.map (·.marker))
    let userPrompt :=
      if !contextBlocks.isEmpty then
        options.question ++ "\n\nYou may reference " ++ markerList ++
          ".\n\n" ++ joinSep "\n\n" contextBlocks
      else options.question
    { prompt := { system := systemPrompt, user := userPrompt },
      citations := citations,
      tokensEstimated :=
        estimateTokens systemPrompt + estimateTokens userPrompt }

/-- The accepted (block, citation) pairs of assemblePrompt at the given
options: the loop it runs in its non-empty branch. -/
def promptAccepted (options : AssemblePromptOptions) :
    List (String × CitationEntry) :=
  assembleAccepted options.packs options.docId
    (maxSafeInteger - (options.headroomTokens.getD 300 : Nat))
    (estimateTokens (getSystemPrompt (options.style.getD .qa)) +
      estimateTokens
        (options.question ++ "\n\nYou may reference the following context:"))
    0 0

/-! ### Artifact loading (runtime/loader/load-artifacts.ts,
core/contracts/manifest.ts).  File reads and JSON.parse are I/O; a
file's parsed content is modelled as an optional Json value (none =
the file is absent).  The manifest is loaded and validated
independently of the other artifact files. -/

/-- Parsed JSON values; the manifest's numeric fields are validated as
integers (z.number().int()), so integer-valued numbers suffice here. -/
inductive Json where
  | null
  | bool (b : Bool)
  | num (n : Int)
  | str (s : String)
  | arr (items : List Json)
  | obj (fields : List (String × Json))

/-- Object field lookup (a duplicated key keeps the last value, as in
JSON.parse). -/
def jsonField (j : Json) (key : String) : Option Json :=
  match j with
  | .obj fields => ((fields.filter fun f => f.1 = key).getLast?).map Prod.snd
  | _ => Option.none

/-- z.string() on an object field. -/
def parseStringField (j : Json) (key : String) : Except String String :=
  match jsonField j key with
  | some (.str s) => .ok s
  | _ => .error ("invalid field " ++ key)

/-- z.number().int().nonnegative() on an object field. -/
def parseNonnegIntField (j : Json) (key : String) : Except String Nat :=
  match jsonField j key with
  | some (.num n) => if n ≥ 0 then .ok n.toNat else .error ("invalid field " ++ key)
  | _ => .error ("invalid field " ++ key)

/-- z.boolean() on an object field. -/
def parseBoolField (j : Json) (key : String) : Except String Bool :=
  match jsonField j key with
  | some (.bool b) => .ok b
  | _ => .error ("invalid field " ++ key)

/-- The optional fractional seconds and the final Z of the datetime
pattern. -/
def fracThenZ : List Char → Bool
  | ['Z'] => true
  | '.' :: rest =>
    !(rest.takeWhile Char.isDigit).isEmpty &&
      rest.dropWhile Char.isDigit = ['Z']
  | _ => false

/-- z.string().datetime(): the UTC ISO-8601 pattern
dddd-dd-ddTdd:dd:dd(.d+)?Z. -/
def isDatetime (s : String) : Bool :=
  match s.toList with
  | y1 :: y2 :: y3 :: y4 :: '-' :: m1 :: m2 :: '-' :: d1 :: d2 :: 'T' ::
      h1 :: h2 :: ':' :: n1 :: n2 :: ':' :: s1 :: s2 :: rest =>
    [y1, y2, y3, y4, m1, m2, d1, d2, h1, h2, n1, n2, s1, s2].all Char.isDigit
      && fracThenZ rest
  | _ => false

/-- Schema versions of the manifest (SchemaVersionsSchema): three plain
strings; no structure of the version text is validated. -/
structure SchemaVersions where
  span : String
  manifest : String
  nodeMap : String
deriving DecidableEq

/-- Normalization settings (NormalizationSchema): unicode and eol are
the literals "NFC" and "LF". -/
structure Normalization where
  unicode : String
  eol : String
  blankLineCollapse : Bool
deriving DecidableEq

/-- The manifest record (ManifestSchema). -/
structure Manifest where
  id : String
  title : String
  createdAt : String
  sourcePath : String
  sourceHash : String
  byteLength : Nat
  spanCount : Nat
  version : String
  format : String
  detection : String
  reader : String
  normalization : Normalization
  schema : SchemaVersions
deriving DecidableEq

/-- SchemaVersionsSchema.parse. -/
def parseSchemaVersions (j : Json) : Except String SchemaVersions := do
  let span ← parseStringField j "span"
  let manifest ← parseStringField j "manifest"
  let nodeMap ← parseStringField j "nodeMap"
  .ok { span := span, manifest := manifest, nodeMap := nodeMap }

/-- NormalizationSchema.parse. -/
def parseNormalization (j : Json) : Except String Normalization := do
  let unicode ← parseStringField j "unicode"
  if unicode ≠ "NFC" then .error "invalid field unicode" else
  let eol ← parseStringField j "eol"
  if eol ≠ "LF" then .error "invalid field eol" else
  let blankLineCollapse ← parseBoolField j "blankLineCollapse"
  .ok { unicode := unicode, eol := eol,
        blankLineCollapse := blankLineCollapse }

/-- ManifestSchema.parse: every field validated by its zod validator.
The schema versions are validated only as strings: no compatibility
check against the compiler's own versions (1.0.0 in pipeline/spanize.ts)
is performed anywhere in the loader. -/
def parseManifest (j : Json) : Except String Manifest := do
  let id ← parseStringField j "id"
  let title ← parseStringField j "title"
  let createdAt ← parseStringField j "createdAt"
  if !isDatetime createdAt then .error "invalid field createdAt" else
  let sourcePath ← parseStringField j "sourcePath"
  let sourceHash ← parseStringField j "sourceHash"
  let byteLength ← parseNonnegIntField j "byteLength"
  let spanCount ← parseNonnegIntField j "spanCount"
  let version ← parseStringField j "version"
  let format ← parseStringField j "format"
  let detection ← parseStringField j "detection"
  if detection ≠ "auto" ∧ detection ≠ "flag" then
    .error "invalid field detection" else
  let reader ← parseStringField j "reader"
  let normalization ←
    match jsonField j "normalization" with
    | some nj => parseNormalization nj
    | Option.none => .error "invalid field normalization"
  let schema ←
    match jsonField j "schema" with
    | some sj => parseSchemaVersions sj
    | Option.none => .error "invalid field schema"
  .ok { id := id, title := title, createdAt := createdAt,
        sourcePath := sourcePath, sourceHash := sourceHash,
        byteLength := byteLength, spanCount := spanCount,
        version := version, format := format, detection := detection,
        reader := reader, normalization := normalization, schema := schema }

/-- Load error taxonomy of the loader (§7). -/
inductive LoadError where
  | artifactMissing (path : String)
  | artifactInvalid (path reason : String)
deriving DecidableEq

/-- The manifest step of loadArtifacts: a missing manifest.json is
ArtifactMissing; a present one that fails ManifestSchema.parse is
ArtifactInvalid; otherwise the parsed manifest is accepted. -/
def loadManifestFile (file : Option Json) : Except LoadError Manifest :=
  match file with
  | Option.none => .error (.artifactMissing "manifest.json")
  | some j =>
    match parseManifest j with
    | .ok m => .ok m
    | .error reason => .error (.artifactInvalid "manifest.json" reason)

/-- A manifest Json object from plain field values, with the three
schema version strings as parameters. -/
def mkManifestJson (id title createdAt sourcePath sourceHash : String)
    (byteLength spanCount : Int) (version format detection reader : String)
    (blankLineCollapse : Bool) (spanV manifestV nodeMapV : String) : Json :=
  .obj
    [("id", .str id), ("title", .str title), ("createdAt", .str createdAt),
     ("sourcePath", .str sourcePath), ("sourceHash", .str sourceHash),
     ("byteLength", .num byteLength), ("spanCount", .num spanCount),
     ("version", .str version), ("format", .str format),
     ("detection", .str detection), ("reader", .str reader),
     ("normalization", .obj
        [("unicode", .str "NFC"), ("eol", .str "LF"),
         ("blankLineCollapse", .bool blankLineCollapse)]),
     ("schema", .obj
        [("span", .str spanV), ("manifest", .str manifestV),
         ("nodeMap", .str nodeMapV)])]

/-! ### Claim-side formulations and concrete corpora used by the
theorems -/

/-- The spec's per-result TF-IDF score, written from the claim's words
(§4.6) for comparison with the ranker: sum over the query tokens of
TF(span,t)·IDF(t) with TF = 1 + ln(count) for count ≥ 1 else 0 and
IDF = ln(N/(1+df)), divided by the square root of the span's token
count, plus min(0.3, k·phraseBoost) with k the number of phrase-hit
entries of the annotation. -/
noncomputable def tfidfScoreClaimed (spans : List Span)
    (queryTokens : List String) (phraseBoost : ℝ) (span : Span)
    (result : SearchResult) : ℝ :=
  let spanTokens := tokenize span.text
  (queryTokens.map fun t =>
      (if 1 ≤ spanTokens.count t then 1 + Real.log (spanTokens.count t) else 0) *
        Real.log ((totalDocuments spans : ℝ) /
          (1 + (documentFrequency spans t : ℝ)))).sum /
      Real.sqrt (spanTokens.length : ℝ) +
    min 0.3 ((result.hits.phrases.length : ℝ) * phraseBoost)

/-- e₁ is at least as good as e₂ under the merge-dedupe selection: no
lower score, and no higher order on a score tie. -/
def entryAtLeast (e₁ e₂ : RetrievalPackEntry) : Prop :=
  e₂.score ≤ e₁.score ∧ (e₂.score = e₁.score → e₁.order ≤ e₂.order)

/-- A one-span corpus whose only span contains the token "query", a
one-edit variant of the query token "querz" (which is absent). -/
def fuzzyDemoSpans : List Span :=
  [{ id := "span:000001", text := "query stuff", meta := ⟨0⟩ }]

/-- A one-span corpus for the duplicate-phrase boost counterexample. -/
def dupPhraseSpans : List Span :=
  [{ id := "span:000001", text := "a b", meta := ⟨0⟩ }]

/-- The results of searching dupPhraseSpans for the same quoted phrase
twice: one hit with two phrase-hit entries for the one distinct
phrase. -/
def dupPhraseResults : List SearchResult :=
  searchWithHits dupPhraseSpans "\"a\" \"a\"" Option.none Option.none

/-- A two-span corpus in which the token zz has document frequency 1 of
2 total documents, so its IDF is ln(2/2) = 0. -/
def punctPhraseSpans : List Span :=
  [{ id := "span:000001", text := "zz xx", meta := ⟨0⟩ },
   { id := "span:000002", text := "yy ww", meta := ⟨1⟩ }]

/-- A minimal pack for the prompt-assembly counterexample. -/
def simplePack (pid text : String) : RetrievalPack :=
  { packId := pid,
    entry := ⟨"s", 0, 0, [], Option.none⟩,
    scope := { type := .neighbors },
    paragraphIds := [],
    text := text,
    meta := { headingPath := [], spanCount := 1,
              charCount := utf16Length text } }

/-- Three accepted packs: the reference line of the assembled prompt
names all three markers, not just the first and the last. -/
def c6DemoOptions : AssemblePromptOptions :=
  { question := "Q?"
    packs := [simplePack "p1" "alpha", simplePack "p2" "beta",
      simplePack "p3" "gamma"]
    docId := "corpus:abc" }

/-! ## Lemmas -/

/-- Membership in the deduplication loop: exactly the input's elements
not already seen. -/
theorem mem_dedupKeepFirstAux {a : String} :
    ∀ (l seen : List String),
      a ∈ dedupKeepFirstAux l seen ↔ a ∈ l ∧ a ∉ seen := by
  intro l
  induction l with
  | nil => intro seen; simp [dedupKeepFirstAux]
  | cons b t ih =>
    intro seen
    rw [dedupKeepFirstAux]
    by_cases hb : seen.contains b = true
    · have hbmem : b ∈ seen := by simpa using hb
      rw [if_pos hb, ih]
      constructor
      · rintro ⟨h1, h2⟩; exact ⟨List.mem_cons_of_mem _ h1, h2⟩
      · rintro ⟨h1, h2⟩
        rcases List.mem_cons.mp h1 with rfl | h1
        · exact absurd hbmem h2
        · exact ⟨h1, h2⟩
    · have hbmem : b ∉ seen := by simpa using hb
      rw [if_neg hb]
      simp only [List.mem_cons, ih]
      constructor
      · rintro (rfl | ⟨h1, h2⟩)
        · exact ⟨Or.inl rfl, hbmem⟩
        · exact ⟨Or.inr h1, fun hs => h2 (Or.inr hs)⟩
      · rintro ⟨rfl | h1, h2⟩
        · exact Or.inl rfl
        · by_cases hab : a = b
          · exact Or.inl hab
          · exact Or.inr ⟨h1, by simp [hab, h2]⟩

/-- Membership is preserved by first-occurrence deduplication. -/
theorem mem_dedupKeepFirst {a : String} {l : List String} :
    a ∈ dedupKeepFirst l ↔ a ∈ l := by
  rw [dedupKeepFirst, mem_dedupKeepFirstAux]
  simp

/-- The deduplication loop emits nothing it has seen and nothing
twice. -/
theorem nodup_dedupKeepFirstAux :
    ∀ (l seen : List String), (dedupKeepFirstAux l seen).Nodup := by
  intro l
  induction l with
  | nil => intro seen; simp [dedupKeepFirstAux]
  | cons b t ih =>
    intro seen
    rw [dedupKeepFirstAux]
    split
    · exact ih seen
    · refine List.nodup_cons.mpr ⟨?_, ih (b :: seen)⟩
      intro hmem
      have := (mem_dedupKeepFirstAux t (b :: seen)).mp hmem
      exact this.2 (List.mem_cons_self b seen)

/-- First-occurrence deduplication yields no duplicates. -/
theorem nodup_dedupKeepFirst (l : List String) : (dedupKeepFirst l).Nodup :=
  nodup_dedupKeepFirstAux l []

/-- The budget loop returns a prefix of its input. -/
theorem budgetLoop_leading :
    ∀ (packs : List RetrievalPack) (lim mt : Option Nat) (c t : Nat),
      applyBudgetLoop packs lim mt c t <+: packs := by
  intro packs
  induction packs with
  | nil => intro lim mt c t; simp [applyBudgetLoop]
  | cons pack rest ih =>
    intro lim mt c t
    simp only [applyBudgetLoop]
    split
    · exact List.nil_prefix
    · split
      · exact List.nil_prefix
      · exact List.cons_prefix_cons.mpr ⟨rfl, ih lim mt (c + 1) (t + pack.meta.charCount)⟩

/-- The budget loop keeps the pack count within the remaining limit. -/
theorem budgetLoop_length :
    ∀ (packs : List RetrievalPack) (l : Nat) (mt : Option Nat) (c t : Nat),
      (applyBudgetLoop packs (some l) mt c t).length + c ≤ max l c := by
  intro packs
  induction packs with
  | nil => intro l mt c t; simp [applyBudgetLoop, Nat.le_max_right]
  | cons pack rest ih =>
    intro l mt c t
    simp only [applyBudgetLoop, ge_iff_le, decide_eq_true_eq]
    split
    · rename_i hc
      simp only [List.length_nil, Nat.zero_add]
      exact Nat.le_max_right l c
    · rename_i hc
      have hcl : c < l := Nat.lt_of_not_le hc
      split
      · simp only [List.length_nil, Nat.zero_add]
        exact Nat.le_max_right l c
      · have := ih l mt (c + 1) (t + pack.meta.charCount)
        simp only [List.length_cons]
        omega

/-- The budget loop never pushes the accumulated character count over
the cap. -/
theorem budgetLoop_sum :
    ∀ (packs : List RetrievalPack) (lim : Option Nat) (m c t : Nat), t ≤ m →
      t + ((applyBudgetLoop packs lim (some m) c t).map
          (fun p => p.meta.charCount)).sum ≤ m := by
  intro packs
  induction packs with
  | nil => intro lim m c t ht; simpa [applyBudgetLoop]
  | cons pack rest ih =>
    intro lim m c t ht
    simp only [applyBudgetLoop, gt_iff_lt, decide_eq_true_eq]
    split
    · simpa
    · split
      · simpa
      · rename_i hm
        have hfit : t + pack.meta.charCount ≤ m := Nat.le_of_not_lt hm
        have := ih lim m (c + 1) (t + pack.meta.charCount) hfit
        simp only [List.map_cons, List.sum_cons]
        omega

/-- Greedy maximality of the budget loop: no prefix that respects both
the remaining pack-count limit and the character cap is longer than
what the loop keeps. -/
theorem budgetLoop_maximal :
    ∀ (packs p : List RetrievalPack) (l m c t : Nat),
      p <+: packs → c + p.length ≤ l →
      t + (p.map (fun q => q.meta.charCount)).sum ≤ m →
      p.length ≤ (applyBudgetLoop packs (some l) (some m) c t).length := by
  intro packs
  induction packs with
  | nil =>
    intro p l m c t hp _ _
    have : p = [] := List.prefix_nil.mp hp
    subst this
    simp
  | cons pack rest ih =>
    intro p l m c t hp hl hm
    match p, hp with
    | [], _ => simp
    | q :: p', hp =>
      obtain ⟨rfl, hp'⟩ : q = pack ∧ p' <+: rest := by
        rcases hp with ⟨s, hs⟩
        cases hs
        exact ⟨rfl, ⟨_, rfl⟩⟩
      simp only [applyBudgetLoop, ge_iff_le, gt_iff_lt, decide_eq_true_eq]
      split
      · rename_i hc
        simp only [List.length_cons] at hl
        omega
      · split
        · rename_i hover
          simp only [List.map_cons, List.sum_cons] at hm
          omega
        · simp only [List.length_cons, Nat.add_le_add_iff_right]
          refine ih p' l m (c + 1) (t + q.meta.charCount) hp' ?_ ?_
          · simp only [List.length_cons] at hl; omega
          · simp only [List.map_cons, List.sum_cons] at hm; omega

/-- Membership after a Set.add step. -/
theorem mem_insertUnique {a x : String} {acc : List String} :
    a ∈ insertUnique acc x ↔ a ∈ acc ∨ a = x := by
  by_cases h : acc.contains x
  · have hx : x ∈ acc := by simpa using h
    rw [insertUnique, if_pos h]
    constructor
    · exact Or.inl
    · rintro (ha | rfl)
      · exact ha
      · exact hx
  · rw [insertUnique, if_neg h]
    simp

/-- Membership in the Set-union loop. -/
theorem mem_listUnionAdd {a : String} :
    ∀ (p acc : List String), a ∈ listUnionAdd acc p ↔ a ∈ acc ∨ a ∈ p := by
  intro p
  induction p with
  | nil => intro acc; simp [listUnionAdd]
  | cons x p' ih =>
    intro acc
    rw [listUnionAdd, List.foldl_cons]
    rw [show List.foldl insertUnique (insertUnique acc x) p' =
          listUnionAdd (insertUnique acc x) p' from rfl]
    rw [ih (insertUnique acc x), mem_insertUnique]
    constructor
    · rintro ((h | rfl) | h)
      · exact Or.inl h
      · exact Or.inr (List.mem_cons_self _ _)
      · exact Or.inr (List.mem_cons_of_mem _ h)
    · rintro (h | h)
      · exact Or.inl (Or.inl h)
      · rcases List.mem_cons.mp h with rfl | h
        · exact Or.inl (Or.inr rfl)
        · exact Or.inr h

/-- Membership in the fuzzy-candidate posting-union fold. -/
theorem mem_unionFoldPostings (spans : List Span) {a : String} :
    ∀ (cs exact : List String),
      a ∈ cs.foldl (fun acc c => listUnionAdd acc (postingList spans c)) exact ↔
        a ∈ exact ∨ ∃ c ∈ cs, a ∈ postingList spans c := by
  intro cs
  induction cs with
  | nil => intro exact; simp
  | cons c cs' ih =>
    intro exact
    rw [List.foldl_cons, ih, mem_listUnionAdd]
    constructor
    · rintro ((h | h) | ⟨d, hd, hin⟩)
      · exact Or.inl h
      · exact Or.inr ⟨c, List.mem_cons_self _ _, h⟩
      · exact Or.inr ⟨d, List.mem_cons_of_mem _ hd, hin⟩
    · rintro (h | ⟨d, hd, hin⟩)
      · exact Or.inl (Or.inl h)
      · rcases List.mem_cons.mp hd with rfl | hd
        · exact Or.inl (Or.inr hin)
        · exact Or.inr ⟨d, hd, hin⟩

/-- Membership in the left-to-right posting-intersection fold. -/
theorem mem_intersectFold {a : String} :
    ∀ (ps : List (List String)) (p : List String),
      a ∈ ps.foldl (fun acc q => acc.filter q.contains) p ↔
        a ∈ p ∧ ∀ q ∈ ps, a ∈ q := by
  intro ps
  induction ps with
  | nil => intro p; simp
  | cons q ps' ih =>
    intro p
    rw [List.foldl_cons, ih, List.mem_filter]
    constructor
    · rintro ⟨⟨h1, h2⟩, h3⟩
      refine ⟨h1, ?_⟩
      intro r hr
      rcases List.mem_cons.mp hr with rfl | hr
      · simpa using h2
      · exact h3 r hr
    · rintro ⟨h1, h2⟩
      exact ⟨⟨h1, by simpa using h2 q (List.mem_cons_self _ _)⟩,
             fun r hr => h2 r (List.mem_cons_of_mem _ hr)⟩

/-- entryAtLeast is reflexive. -/
theorem entryAtLeast_refl (e : RetrievalPackEntry) : entryAtLeast e e :=
  ⟨le_refl _, fun _ => Nat.le_refl _⟩

/-- entryAtLeast is transitive. -/
theorem entryAtLeast_trans {e₁ e₂ e₃ : RetrievalPackEntry}
    (h12 : entryAtLeast e₁ e₂) (h23 : entryAtLeast e₂ e₃) :
    entryAtLeast e₁ e₃ := by
  refine ⟨le_trans h23.1 h12.1, fun heq => ?_⟩
  have h2eq : e₂.score = e₁.score := le_antisymm h12.1 (heq ▸ h23.1)
  have h3eq : e₃.score = e₂.score := by rw [h2eq]; exact heq
  exact Nat.le_trans (h12.2 h2eq) (h23.2 h3eq)

/-- One selection step keeps at least the current best. -/
theorem betterEntry_atLeast_left (b c : RetrievalPackEntry) :
    entryAtLeast (betterEntry b c) b := by
  rw [betterEntry]
  split
  · rename_i hgt
    exact ⟨le_of_lt hgt, fun heq => absurd heq.symm (ne_of_gt hgt)⟩
  · split
    · rename_i hgt htie
      exact ⟨le_of_eq htie.1.symm, fun _ => le_of_lt htie.2⟩
    · exact entryAtLeast_refl b

/-- One selection step is at least the candidate. -/
theorem betterEntry_atLeast_right (b c : RetrievalPackEntry) :
    entryAtLeast (betterEntry b c) c := by
  rw [betterEntry]
  split
  · exact entryAtLeast_refl c
  · split
    · exact entryAtLeast_refl c
    · rename_i hgt htie
      refine ⟨le_of_not_lt hgt, fun heq => ?_⟩
      by_contra hord
      exact htie ⟨heq, Nat.lt_of_not_le hord⟩

/-- The selection fold dominates its seed and every candidate it saw. -/
theorem foldl_betterEntry_atLeast :
    ∀ (l : List ExpandedContext) (best : RetrievalPackEntry),
      entryAtLeast (l.foldl (fun b ctx => betterEntry b ctx.entry) best) best ∧
      ∀ ctx ∈ l,
        entryAtLeast (l.foldl (fun b ctx => betterEntry b ctx.entry) best)
          ctx.entry := by
  intro l
  induction l with
  | nil => intro best; exact ⟨entryAtLeast_refl best, by simp⟩
  | cons c l' ih =>
    intro best
    rw [List.foldl_cons]
    obtain ⟨h1, h2⟩ := ih (betterEntry best c.entry)
    refine ⟨entryAtLeast_trans h1 (betterEntry_atLeast_left best c.entry), ?_⟩
    intro ctx hctx
    rcases List.mem_cons.mp hctx with rfl | hctx
    · exact entryAtLeast_trans h1 (betterEntry_atLeast_right best ctx.entry)
    · exact h2 ctx hctx

/-- The selection fold's result is the seed or one of the candidates. -/
theorem foldl_betterEntry_mem :
    ∀ (l : List ExpandedContext) (best : RetrievalPackEntry),
      l.foldl (fun b ctx => betterEntry b ctx.entry) best = best ∨
      ∃ ctx ∈ l,
        l.foldl (fun b ctx => betterEntry b ctx.entry) best = ctx.entry := by
  intro l
  induction l with
  | nil => intro best; exact Or.inl rfl
  | cons c l' ih =>
    intro best
    rw [List.foldl_cons]
    rcases ih (betterEntry best c.entry) with h | ⟨ctx, hctx, h⟩
    · rw [h, betterEntry]
      split
      · exact Or.inr ⟨c, List.mem_cons_self _ _, rfl⟩
      · split
        · exact Or.inr ⟨c, List.mem_cons_self _ _, rfl⟩
        · exact Or.inl rfl
    · exact Or.inr ⟨ctx, List.mem_cons_of_mem _ hctx, h⟩

/-- The union of paragraph-id arrays has no duplicates. -/
theorem unionParagraphIds_nodup (arrays : List (List String)) :
    (unionParagraphIds arrays).Nodup :=
  ((List.mergeSort_perm _ _).nodup_iff).mpr (nodup_dedupKeepFirst _)

/-- Membership in the union of paragraph-id arrays. -/
theorem mem_unionParagraphIds {a : String} {arrays : List (List String)} :
    a ∈ unionParagraphIds arrays ↔ ∃ l ∈ arrays, a ∈ l := by
  rw [unionParagraphIds, (List.mergeSort_perm _ _).mem_iff, mem_dedupKeepFirst,
    List.mem_flatten]

/-- The union of paragraph-id arrays is sorted by the order parsed from
the span id. -/
theorem unionParagraphIds_sorted (arrays : List (List String)) :
    (unionParagraphIds arrays).Pairwise
      (fun a b => spanIdOrder a ≤ spanIdOrder b) := by
  have h := List.sorted_mergeSort
    (fun a b c (hab : decide (spanIdOrder a ≤ spanIdOrder b) = true) hbc => by
      simp only [decide_eq_true_eq] at *
      exact Nat.le_trans hab hbc)
    (fun a b => by
      simp only [Bool.or_eq_true, decide_eq_true_eq]
      exact Nat.le_total _ _)
    (dedupKeepFirst arrays.flatten)
  exact h.imp (by simp)

open Classical in
/-- What mergeGroup guarantees about a produced merged context. -/
theorem mergeGroup_spec {pid : String} {group : List ExpandedContext}
    {m : MergedContext} (h : mergeGroup pid group = some m) :
    m.packId = pid ∧
    (∃ ctx ∈ group, ctx.entry = m.entry ∧ m.scope = ctx.scope ∧
       m.headingPath = ctx.headingPath) ∧
    (∀ ctx ∈ group, entryAtLeast m.entry ctx.entry) ∧
    m.paragraphIds = unionParagraphIds (group.map (fun c => c.paragraphIds)) := by
  match group with
  | [] => simp [mergeGroup] at h
  | g :: gs =>
    rw [mergeGroup] at h
    obtain rfl := (Option.some_inj.mp h).symm
    have hbestmem : ∃ ctx ∈ g :: gs, ctx.entry = bestEntryOf g gs := by
      rcases foldl_betterEntry_mem (g :: gs) g.entry with heq | ⟨ctx, hctx, heq⟩
      · exact ⟨g, List.mem_cons_self _ _, heq.symm ▸ rfl⟩
      · exact ⟨ctx, hctx, heq.symm⟩
    have hfind : ((g :: gs).find? fun ctx =>
        decide (ctx.entry = bestEntryOf g gs)).isSome = true := by
      rw [List.find?_isSome]
      obtain ⟨ctx, hctx, heq⟩ := hbestmem
      exact ⟨ctx, hctx, by simp [heq]⟩
    obtain ⟨ctx₀, hctx₀⟩ := Option.isSome_iff_exists.mp hfind
    have hctx₀mem : ctx₀ ∈ g :: gs := List.mem_of_find?_eq_some hctx₀
    have hctx₀best : ctx₀.entry = bestEntryOf g gs := by
      have := List.find?_some hctx₀
      simpa using this
    refine ⟨rfl, ⟨ctx₀, hctx₀mem, ?_, ?_, ?_⟩, ?_, rfl⟩
    · simpa [hctx₀] using hctx₀best
    · simp [hctx₀]
    · simp [hctx₀]
    · intro ctx hctx
      simpa using (foldl_betterEntry_atLeast (g :: gs) g.entry).2 ctx hctx

/-- Membership in dedupeAndMerge's output. -/
theorem mem_dedupeAndMerge {contexts : List ExpandedContext}
    {m : MergedContext} :
    m ∈ dedupeAndMerge contexts ↔
      ∃ pid ∈ dedupKeepFirst (contexts.map (fun c => c.packId)),
        mergeGroup pid (contexts.filter fun c => c.packId = pid) = some m := by
  rw [dedupeAndMerge, List.mem_filterMap]

/-- Mapping packId over dedupeAndMerge recovers the deduplicated pack
ids of the input. -/
theorem dedupeAndMerge_map_packId (contexts : List ExpandedContext) :
    (dedupeAndMerge contexts).map (fun m => m.packId) =
      dedupKeepFirst (contexts.map fun c => c.packId) := by
  rw [dedupeAndMerge]
  have hgen : ∀ (l : List String) (f : String → Option MergedContext),
      (∀ x ∈ l, ∃ m, f x = some m ∧ m.packId = x) →
      (l.filterMap f).map (fun m => m.packId) = l := by
    intro l
    induction l with
    | nil => intro f _; simp
    | cons x l' ih =>
      intro f hf
      obtain ⟨m, hm, hmid⟩ := hf x (List.mem_cons_self _ _)
      rw [List.filterMap_cons, hm]
      simp only [List.map_cons, hmid]
      rw [ih f fun y hy => hf y (List.mem_cons_of_mem _ hy)]
  refine hgen _ _ ?_
  intro pid hpid
  have : ∃ ctx ∈ contexts, ctx.packId = pid := by
    have := mem_dedupKeepFirst.mp hpid
    simpa using this
  obtain ⟨ctx, hctx, hid⟩ := this
  have hne : contexts.filter (fun c => c.packId = pid) ≠ [] := by
    intro hnil
    have := List.filter_eq_nil_iff.mp hnil ctx hctx
    simp [hid] at this
  obtain ⟨g, gs, hcons⟩ := List.exists_cons_of_ne_nil hne
  rw [hcons, mergeGroup]
  exact ⟨_, rfl, rfl⟩

/-- A span found by id lookup is one of the spans. -/
theorem spanById_mem {spans : List Span} {id : String} {s : Span}
    (h : spanById spans id = some s) : s ∈ spans := by
  rw [spanById] at h
  exact List.mem_filter.mp (List.mem_of_mem_getLast? h) |>.1

/-- With well-formed embeddings (every non-empty span embedding has the
query embedding's dimension), one scoring step never throws. -/
theorem cosineScoreStep_ok {spans : List Span} {queryEmbedding : List ℝ}
    (hwf : ∀ span ∈ spans, ∀ e, span.embedding = some e → e ≠ [] →
      e.length = queryEmbedding.length)
    (scores : List (String × ℝ)) (spanId : String) :
    ∃ acc, cosineScoreStep spans queryEmbedding scores spanId = .ok acc := by
  rw [cosineScoreStep]
  split
  · exact ⟨scores, rfl⟩
  · rename_i span hws
    split
    · exact ⟨scores, rfl⟩
    · rename_i embedding hwe
      split
      · exact ⟨scores, rfl⟩
      · rename_i hemp
        have hlen : embedding.length = queryEmbedding.length :=
          hwf span (spanById_mem hws) embedding hwe
            (by simpa using hemp)
        have hcs : cosineSimilarity queryEmbedding embedding =
            .ok ((queryEmbedding.zip embedding).map fun p => p.1 * p.2).sum := by
          rw [cosineSimilarity, if_neg (by omega)]
        refine ⟨scores ++
          [(spanId, ((queryEmbedding.zip embedding).map fun p => p.1 * p.2).sum)], ?_⟩
        rw [hcs]
        rfl

/-- With well-formed embeddings, semantic scoring never throws. -/
theorem scoreByCosineSimilarity_ok {spans : List Span}
    {queryEmbedding : List ℝ}
    (hwf : ∀ span ∈ spans, ∀ e, span.embedding = some e → e ≠ [] →
      e.length = queryEmbedding.length) :
    ∀ (spanIds : List String) (acc : List (String × ℝ)),
      ∃ scores,
        spanIds.foldlM (cosineScoreStep spans queryEmbedding) acc =
          .ok scores := by
  intro spanIds
  induction spanIds with
  | nil => intro acc; exact ⟨acc, rfl⟩
  | cons id rest ih =>
    intro acc
    rw [List.foldlM_cons]
    obtain ⟨acc', hacc'⟩ := cosineScoreStep_ok hwf acc id
    obtain ⟨scores, hs⟩ := ih acc'
    refine ⟨scores, ?_⟩
    rw [hacc']
    exact hs

/-! ## Claims -/

/-- C1: with fuzzy enabled, searchWithHits's candidate set is the
intersection over the query tokens of the effective posting sets; an
eligible token's effective posting set is its exact posting unioned
with the exact postings of each of its fuzzy candidates; and on the
concrete corpus fuzzyDemoSpans the query "querz" (absent from the
corpus, one edit away from "query") returns the span with its token hit
flagged fuzzy = true. -/
theorem C1_candidate_intersection_and_fuzzy_flag :
    (∀ (spans : List Span) (parsed : ParsedQuery) (fo : Option FuzzyOptions)
       (a : String), parsed.tokens ≠ [] →
       (a ∈ searchCandidateIds spans parsed fo ↔
         ∀ t ∈ parsed.tokens, a ∈ (getPostingsWithFuzzy spans t fo).1)) ∧
    (∀ (spans : List Span) (t : String) (fo : FuzzyOptions),
       fo.enabled.getD false = true → isFuzzyEligible spans t fo = true →
       ∀ a, a ∈ (getPostingsWithFuzzy spans t (some fo)).1 ↔
         (a ∈ postingList spans t ∨
          ∃ c ∈ findFuzzyCandidates t (vocabulary spans)
              (fo.maxCandidatesPerToken.getD 50), a ∈ postingList spans c)) ∧
    ((searchWithHits fuzzyDemoSpans "querz" Option.none
        (some { enabled := some true })).map (fun r => (r.id, r.hits)) =
      [("span:000001",
        { tokens := [{ term := "querz", fuzzy := true }], phrases := [] })]) := by
  refine ⟨?_, ?_, by decide⟩
  · intro spans parsed fo a htok
    obtain ⟨t, ts, heq⟩ := List.exists_cons_of_ne_nil htok
    rw [searchCandidateIds, heq]
    simp only [List.isEmpty_cons, Bool.not_false, if_true, List.map_cons]
    rw [mem_intersectFold]
    simp [List.forall_mem_cons]
  · intro spans t fo hen hel a
    rw [getPostingsWithFuzzy]
    simp only [hen, hel, Bool.and_self, if_true]
    exact mem_unionFoldPostings spans _ _

/-- C3: applyBudget with a provided limit and maxTokens takes packs
greedily in order (the output is a prefix of the input, and no prefix
meeting both constraints is longer), returns at most limit packs, and
the sum of meta.charCount over the returned packs never exceeds
maxTokens. -/
theorem C3_budget_greedy (packs : List RetrievalPack) (limit maxTokens : Nat) :
    applyBudget packs (some limit) (some maxTokens) <+: packs ∧
    (applyBudget packs (some limit) (some maxTokens)).length ≤ limit ∧
    ((applyBudget packs (some limit) (some maxTokens)).map
        (fun p => p.meta.charCount)).sum ≤ maxTokens ∧
    ∀ p, p <+: packs → p.length ≤ limit →
      (p.map (fun q => q.meta.charCount)).sum ≤ maxTokens →
      p.length ≤ (applyBudget packs (some limit) (some maxTokens)).length := by
  refine ⟨budgetLoop_leading .., ?_, ?_, ?_⟩
  · have := budgetLoop_length packs limit (some maxTokens) 0 0
    simpa using this
  · have := budgetLoop_sum packs (some limit) maxTokens 0 0 (Nat.zero_le _)
    simpa using this
  · intro p hp hl hm
    exact budgetLoop_maximal packs p limit maxTokens 0 0 hp (by simpa) (by simpa)

/-- C5: dedupeAndMerge returns exactly one merged context per distinct
packId, in first-occurrence order, so no two outputs share a packId;
each output keeps a group entry of maximal score with ties broken by
lower order, and its scope and headingPath are those of that best
entry's context; and the merged paragraphIds are the duplicate-free
union of the group's paragraphIds, ordered by the document order the
code derives from the span-id number. -/
theorem C5_dedupe_and_merge (contexts : List ExpandedContext) :
    ((dedupeAndMerge contexts).map (fun m => m.packId) =
        dedupKeepFirst (contexts.map fun c => c.packId) ∧
      ((dedupeAndMerge contexts).map (fun m => m.packId)).Nodup) ∧
    (∀ m ∈ dedupeAndMerge contexts,
      (∃ ctx ∈ contexts, ctx.packId = m.packId ∧ ctx.entry = m.entry ∧
         m.scope = ctx.scope ∧ m.headingPath = ctx.headingPath) ∧
      ∀ ctx ∈ contexts, ctx.packId = m.packId →
        entryAtLeast m.entry ctx.entry) ∧
    (∀ m ∈ dedupeAndMerge contexts,
      m.paragraphIds.Nodup ∧
      (∀ a, a ∈ m.paragraphIds ↔
        ∃ ctx ∈ contexts, ctx.packId = m.packId ∧ a ∈ ctx.paragraphIds) ∧
      m.paragraphIds.Pairwise fun a b => spanIdOrder a ≤ spanIdOrder b) := by
  refine ⟨⟨dedupeAndMerge_map_packId contexts, ?_⟩, ?_, ?_⟩
  · rw [dedupeAndMerge_map_packId contexts]
    exact nodup_dedupKeepFirst _
  · intro m hm
    obtain ⟨pid, hpid, hmg⟩ := mem_dedupeAndMerge.mp hm
    obtain ⟨hmpid, ⟨ctx₀, hctx₀grp, hce, hcs, hch⟩, hbest, -⟩ := mergeGroup_spec hmg
    obtain ⟨hctx₀mem, hctx₀pid⟩ := List.mem_filter.mp hctx₀grp
    refine ⟨⟨ctx₀, hctx₀mem, ?_, hce, hcs, hch⟩, ?_⟩
    · rw [hmpid]
      simpa using hctx₀pid
    · intro ctx hctx hcid
      refine hbest ctx (List.mem_filter.mpr ⟨hctx, ?_⟩)
      simp [hcid, hmpid]
  · intro m hm
    obtain ⟨pid, hpid, hmg⟩ := mem_dedupeAndMerge.mp hm
    obtain ⟨hmpid, -, -, hpar⟩ := mergeGroup_spec hmg
    rw [hpar]
    refine ⟨unionParagraphIds_nodup _, ?_, unionParagraphIds_sorted _⟩
    intro a
    rw [mem_unionParagraphIds]
    constructor
    · rintro ⟨l, hl, hal⟩
      obtain ⟨ctx, hctxgrp, rfl⟩ := List.mem_map.mp hl
      obtain ⟨hctxmem, hctxpid⟩ := List.mem_filter.mp hctxgrp
      exact ⟨ctx, hctxmem, by rw [hmpid]; simpa using hctxpid, hal⟩
    · rintro ⟨ctx, hctxmem, hcid, hal⟩
      refine ⟨ctx.paragraphIds, List.mem_map.mpr
        ⟨ctx, List.mem_filter.mpr ⟨hctxmem, by simp [hcid, hmpid]⟩, rfl⟩, hal⟩

open Classical in
/-- C7: with well-formed span embeddings (every non-empty embedding has
the query embedding's dimension), HybridRanker.rankWithHits throws
exactly when a weight (defaults 0.7 and 0.3) is negative or their sum
exceeds 1; the check happens first, returning the error before any
scoring (in particular also on an empty result list), and with valid
weights no error can arise. -/
theorem C7_hybrid_invalid_weights
    (spans : List Span) (results : List SearchResult)
    (queryTokens : List String) (queryEmbedding : List ℝ)
    (options : HybridOptions)
    (hwf : ∀ span ∈ spans, ∀ e, span.embedding = some e → e ≠ [] →
      e.length = queryEmbedding.length) :
    ((options.weightLexical.getD 0.7 < 0 ∨
        options.weightSemantic.getD 0.3 < 0) →
      hybridRankWithHits spans results queryTokens queryEmbedding options =
        .error "Weights must be non-negative") ∧
    (¬(options.weightLexical.getD 0.7 < 0 ∨
        options.weightSemantic.getD 0.3 < 0) →
      options.weightLexical.getD 0.7 + options.weightSemantic.getD 0.3 > 1 →
      hybridRankWithHits spans results queryTokens queryEmbedding options =
        .error "Weight sum cannot exceed 1.0") ∧
    ((∃ msg, hybridRankWithHits spans results queryTokens queryEmbedding
        options = .error msg) ↔
      (options.weightLexical.getD 0.7 < 0 ∨
       options.weightSemantic.getD 0.3 < 0 ∨
       options.weightLexical.getD 0.7 + options.weightSemantic.getD 0.3 > 1)) := by
  refine ⟨?_, ?_, ?_⟩
  · intro h1
    simp only [hybridRankWithHits]
    rw [if_pos h1]
  · intro h1 h2
    simp only [hybridRankWithHits]
    rw [if_neg h1, if_pos h2]
  · constructor
    · rintro ⟨msg, hmsg⟩
      by_contra hgood
      push_neg at hgood
      obtain ⟨hg1, hg2, hg3⟩ := hgood
      simp only [hybridRankWithHits] at hmsg
      rw [if_neg (by push_neg; exact ⟨hg1, hg2⟩), if_neg (by exact not_lt.mpr hg3)]
        at hmsg
      by_cases hres : results.isEmpty
      · rw [if_pos hres] at hmsg
        exact Except.noConfusion hmsg
      · rw [if_neg hres] at hmsg
        obtain ⟨scores, hok⟩ := scoreByCosineSimilarity_ok hwf
          (results.map fun r => r.id) []
        rw [show scoreByCosineSimilarity spans (results.map fun r => r.id)
              queryEmbedding =
            (results.map fun r => r.id).foldlM
              (cosineScoreStep spans queryEmbedding) [] from rfl] at hmsg
        rw [hok] at hmsg
        simp only [Bind.bind, Except.bind] at hmsg
        exact Except.noConfusion hmsg
    · intro hbad
      by_cases h1 : options.weightLexical.getD 0.7 < 0 ∨
          options.weightSemantic.getD 0.3 < 0
      · refine ⟨"Weights must be non-negative", ?_⟩
        simp only [hybridRankWithHits]
        rw [if_pos h1]
      · have h2 : options.weightLexical.getD 0.7 +
            options.weightSemantic.getD 0.3 > 1 := by
          push_neg at h1
          rcases hbad with hb | hb | hb
          · exact absurd hb (not_lt.mpr h1.1)
          · exact absurd hb (not_lt.mpr h1.2)
          · exact hb
        refine ⟨"Weight sum cannot exceed 1.0", ?_⟩
        simp only [hybridRankWithHits]
        rw [if_neg h1, if_pos h2]

/-- Witness for C7: at empty spans and results with default weights,
hybrid ranking reports an error exactly when the default weights are
invalid (they are not). -/
theorem C7_hybrid_invalid_weights_witness :
    (∃ msg, hybridRankWithHits [] [] [] [] {} = .error msg) ↔
      ((0.7 : ℝ) < 0 ∨ (0.3 : ℝ) < 0 ∨ (0.7 : ℝ) + 0.3 > 1) :=
  (C7_hybrid_invalid_weights [] [] [] [] {} (by simp)).2.2

/-- Binding a successful Except value applies the continuation. -/
theorem exceptOkBind {α β : Type} (a : α) (f : α → Except String β) :
    ((Except.ok a : Except String α) >>= f) = f a := rfl

/-- C8 counterexample: a manifest whose three schema versions have
major component 2 — while the compiler of this snapshot stamps 1.0.0
(pipeline/spanize.ts) — is accepted by the loader's manifest step
instead of failing with ArtifactInvalid: ManifestSchema validates the
schema versions only as strings, and no major-version compatibility
check exists anywhere in loadArtifacts. -/
theorem C8_major_version_two_accepted :
    loadManifestFile (some (mkManifestJson "corpus:abcdef123456" "Title"
        "2024-01-01T00:00:00Z" "doc.md" "ff00" 10 2 "1.0.0" "markdown"
        "auto" "markdown-reader" true "2.0.0" "2.0.0" "2.0.0")) =
      .ok { id := "corpus:abcdef123456", title := "Title",
            createdAt := "2024-01-01T00:00:00Z", sourcePath := "doc.md",
            sourceHash := "ff00", byteLength := 10, spanCount := 2,
            version := "1.0.0", format := "markdown", detection := "auto",
            reader := "markdown-reader",
            normalization := { unicode := "NFC", eol := "LF",
                               blankLineCollapse := true },
            schema := { span := "2.0.0", manifest := "2.0.0",
                        nodeMap := "2.0.0" } } := rfl

/-- C8 (amended): the loader performs no schema-version compatibility
check at all: a manifest whose other fields pass their validators is
accepted with every choice of the three schema version strings,
whatever their major components. -/
theorem C8_schema_versions_never_checked
    (id title createdAt sourcePath sourceHash : String)
    (byteLength spanCount : Int) (version format detection reader : String)
    (blankLineCollapse : Bool) (spanV manifestV nodeMapV : String)
    (hdt : isDatetime createdAt = true)
    (hbl : 0 ≤ byteLength) (hsc : 0 ≤ spanCount)
    (hdet : detection = "auto" ∨ detection = "flag") :
    loadManifestFile (some (mkManifestJson id title createdAt sourcePath
        sourceHash byteLength spanCount version format detection reader
        blankLineCollapse spanV manifestV nodeMapV)) =
      .ok { id := id, title := title, createdAt := createdAt,
            sourcePath := sourcePath, sourceHash := sourceHash,
            byteLength := byteLength.toNat, spanCount := spanCount.toNat,
            version := version, format := format, detection := detection,
            reader := reader,
            normalization := { unicode := "NFC", eol := "LF",
                               blankLineCollapse := blankLineCollapse },
            schema := { span := spanV, manifest := manifestV,
                        nodeMap := nodeMapV } } := by
  have hcond : ¬(detection ≠ "auto" ∧ detection ≠ "flag") := by
    rcases hdet with h | h <;> simp [h]
  set J := mkManifestJson id title createdAt sourcePath sourceHash byteLength
    spanCount version format detection reader blankLineCollapse spanV
    manifestV nodeMapV with hJ
  have hbyte : parseNonnegIntField J "byteLength" = .ok byteLength.toNat := by
    rw [show parseNonnegIntField J "byteLength" =
      (if byteLength ≥ 0 then .ok byteLength.toNat
       else .error "invalid field byteLength") from rfl, if_pos hbl]
  have hspanc : parseNonnegIntField J "spanCount" = .ok spanCount.toNat := by
    rw [show parseNonnegIntField J "spanCount" =
      (if spanCount ≥ 0 then .ok spanCount.toNat
       else .error "invalid field spanCount") from rfl, if_pos hsc]
  rw [loadManifestFile]
  rw [show parseManifest J =
    (if (!isDatetime createdAt) = true then
        Except.error "invalid field createdAt"
      else
        (parseNonnegIntField J "byteLength" >>= fun byteLength' =>
         parseNonnegIntField J "spanCount" >>= fun spanCount' =>
         (if detection ≠ "auto" ∧ detection ≠ "flag" then
            Except.error "invalid field detection"
          else
            Except.ok
              { id := id, title := title, createdAt := createdAt,
                sourcePath := sourcePath, sourceHash := sourceHash,
                byteLength := byteLength', spanCount := spanCount',
                version := version, format := format, detection := detection,
                reader := reader,
                normalization := { unicode := "NFC", eol := "LF",
                                   blankLineCollapse := blankLineCollapse },
                schema := { span := spanV, manifest := manifestV,
                            nodeMap := nodeMapV } }))) from rfl]
  rw [hdt]
  simp only [Bool.not_true, Bool.false_eq_true, if_false, hbyte, hspanc,
    exceptOkBind, if_neg hcond]

/-- Witness for C8 (amended): a fully concrete manifest with schema
versions of majors 3, 9 and 0 is accepted. -/
theorem C8_schema_versions_never_checked_witness :
    loadManifestFile (some (mkManifestJson "corpus:ffffffffffff" "T"
        "2025-06-30T12:00:00Z" "a.md" "00ff" 5 1 "1.0.0" "markdown" "flag"
        "markdown-reader" false "3.1.4" "9.9.9" "0.0.1")) =
      .ok { id := "corpus:ffffffffffff", title := "T",
            createdAt := "2025-06-30T12:00:00Z", sourcePath := "a.md",
            sourceHash := "00ff", byteLength := (5 : Int).toNat,
            spanCount := (1 : Int).toNat, version := "1.0.0",
            format := "markdown", detection := "flag",
            reader := "markdown-reader",
            normalization := { unicode := "NFC", eol := "LF",
                               blankLineCollapse := false },
            schema := { span := "3.1.4", manifest := "9.9.9",
                        nodeMap := "0.0.1" } } :=
  C8_schema_versions_never_checked "corpus:ffffffffffff" "T"
    "2025-06-30T12:00:00Z" "a.md" "00ff" 5 1 "1.0.0" "markdown" "flag"
    "markdown-reader" false "3.1.4" "9.9.9" "0.0.1" (by decide) (by decide)
    (by decide) (Or.inr rfl)

/-- C10: a phrase whose normalization is empty (e.g. pure punctuation)
is contained in every text (includes of the empty string), yields no
match ranges, and adding it to a query's phrase list never changes
which spans pass the phrase filter; yet on the concrete two-span corpus
the query zz "??" returns the span with an empty-range phrase hit whose
entry still earns the 0.1 phrase boost in rankWithHits (the boost
counts hits.phrases entries, not non-empty range sets): the total score
is exactly 0.1 because IDF(zz) = ln(2/2) = 0. -/
theorem C10_empty_normalized_phrase :
    (∀ (text phrase : String), normalizePhrase phrase = "" →
       containsAllPhrases text [phrase] = true ∧
       findPhraseMatches text phrase = []) ∧
    (∀ (text : String) (phrases : List String) (phrase : String),
       normalizePhrase phrase = "" →
       containsAllPhrases text (phrase :: phrases) =
         containsAllPhrases text phrases) ∧
    ((searchWithHits punctPhraseSpans "zz \"??\"" Option.none
        Option.none).map (fun r => (r.id, r.hits)) =
      [("span:000001",
        { tokens := [{ term := "zz", fuzzy := false }],
          phrases := [{ phrase := "??", ranges := [] }] })]) ∧
    ((tfidfRankWithHits punctPhraseSpans
        (searchWithHits punctPhraseSpans "zz \"??\"" Option.none Option.none)
        ["zz"] 0.1).map (fun r => r.score) = [(0.1 : ℝ)]) := by
  refine ⟨?_, ?_, by decide, ?_⟩
  · intro text phrase h
    have hnil : (normalizePhrase phrase).data = [] := by rw [h]
    constructor
    · have hidx : indexOfList (normalizePhrase text).data [] = some 0 := by
        unfold indexOfList
        rw [List.isPrefixOf_nil_left]
        simp
      simp [containsAllPhrases, hnil, includesList, hidx]
    · simp [findPhraseMatches, hnil]
  · intro text phrases phrase h
    have hnil : (normalizePhrase phrase).data = [] := by rw [h]
    have hidx : indexOfList (normalizePhrase text).data [] = some 0 := by
      unfold indexOfList
      rw [List.isPrefixOf_nil_left]
      simp
    simp [containsAllPhrases, hnil, includesList, hidx]
  · rw [show (tfidfRankWithHits punctPhraseSpans
          (searchWithHits punctPhraseSpans "zz \"??\"" Option.none
            Option.none) ["zz"] 0.1) =
        [{ id := "span:000001", order := 0,
           score := tfidfScore punctPhraseSpans ["zz"] 0.1
             { id := "span:000001", text := "zz xx", meta := ⟨0⟩ }
             { id := "span:000001", order := 0, score := 0,
               hits := { tokens := [⟨"zz", false⟩],
                         phrases := [⟨"??", []⟩] } },
           hits := { tokens := [⟨"zz", false⟩],
                     phrases := [⟨"??", []⟩] } }]
        from rfl]
    rw [List.map_cons, List.map_nil]
    rw [tfidfScore]
    simp only [show tokenize "zz xx" = ["zz", "xx"] from rfl,
      List.foldl_cons, List.foldl_nil, tfWeight, idfWeight,
      show (["zz", "xx"].count "zz") = 1 from rfl,
      show documentFrequency punctPhraseSpans "zz" = 1 from rfl,
      show totalDocuments punctPhraseSpans = 2 from rfl]
    norm_num [Real.log_one]

/-- The ranker's score accumulation loop is the sum of the mapped
terms. -/
theorem foldl_add_eq_sum (f : String → ℝ) :
    ∀ (l : List String) (init : ℝ),
      l.foldl (fun s t => s + f t) init = init + (l.map f).sum := by
  intro l
  induction l with
  | nil => intro init; simp
  | cons t l' ih =>
    intro init
    rw [List.foldl_cons, ih, List.map_cons, List.sum_cons]
    ring

/-- The ranker's per-result score equals the spec's formula with the
phrase-entry count as k. -/
theorem tfidfScore_eq_claimed (spans : List Span) (queryTokens : List String)
    (phraseBoost : ℝ) (span : Span) (result : SearchResult) :
    tfidfScore spans queryTokens phraseBoost span result =
      tfidfScoreClaimed spans queryTokens phraseBoost span result := by
  rw [tfidfScore, tfidfScoreClaimed]
  simp only [idfWeight]
  rw [foldl_add_eq_sum, zero_add]
  congr 2
  refine congrArg List.sum (List.map_congr_left ?_)
  intro t _
  rw [tfWeight]
  by_cases hc : (tokenize span.text).count t = 0
  · simp [hc]
  · have h1 : 1 ≤ (tokenize span.text).count t := Nat.one_le_iff_ne_zero.mpr hc
    simp [hc, h1]

/-- C4 (amended): with every result's span present, rankWithHits maps
each result, in input order, to the same result with score
Σ_t TF(span,t)·IDF(t) / √L(span) + min(0.3, k·phraseBoost), where
TF = 1 + ln(count) for count ≥ 1 else 0, IDF(t) = ln(N/(1+df(t))),
L(span) is the span's token count, and k is the number of phrase-hit
entries of the result's annotation (duplicates and empty-normalized
phrases included). -/
theorem C4_tfidf_score_formula (spans : List Span)
    (results : List SearchResult) (queryTokens : List String)
    (phraseBoost : ℝ)
    (h : ∀ r ∈ results, ∃ s, spanById spans r.id = some s) :
    tfidfRankWithHits spans results queryTokens phraseBoost =
      results.map fun r =>
        match spanById spans r.id with
        | some span =>
          { r with score :=
              tfidfScoreClaimed spans queryTokens phraseBoost span r }
        | Option.none => r := by
  rw [tfidfRankWithHits]
  induction results with
  | nil => simp
  | cons r rest ih =>
    obtain ⟨s, hs⟩ := h r (List.mem_cons_self _ _)
    rw [List.filterMap_cons, List.map_cons, hs]
    simp only [Option.map_some']
    rw [ih fun q hq => h q (List.mem_cons_of_mem _ hq)]
    rw [tfidfScore_eq_claimed]

/-- Witness for C4 (amended) at the one-result punctuation-phrase
corpus. -/
theorem C4_tfidf_score_formula_witness :
    tfidfRankWithHits punctPhraseSpans
        (searchWithHits punctPhraseSpans "zz \"??\"" Option.none Option.none)
        ["zz"] 0.1 =
      (searchWithHits punctPhraseSpans "zz \"??\"" Option.none
          Option.none).map fun r =>
        match spanById punctPhraseSpans r.id with
        | some span =>
          { r with score := tfidfScoreClaimed punctPhraseSpans ["zz"] 0.1 span r }
        | Option.none => r :=
  C4_tfidf_score_formula punctPhraseSpans
    (searchWithHits punctPhraseSpans "zz \"??\"" Option.none Option.none)
    ["zz"] 0.1
    (by
      intro r hr
      refine ⟨{ id := "span:000001", text := "zz xx", meta := ⟨0⟩ }, ?_⟩
      rw [show searchWithHits punctPhraseSpans "zz \"??\"" Option.none
            Option.none =
          [{ id := "span:000001", order := 0, score := 0,
             hits := { tokens := [⟨"zz", false⟩],
                       phrases := [⟨"??", []⟩] } }] from rfl] at hr
      rw [List.mem_singleton.mp hr]
      rfl)

/-- C4 counterexample: searching the one-span corpus "a b" for the same
quoted phrase twice produces one result with two phrase-hit entries for
the single distinct matched phrase "a"; with no query tokens and
phraseBoost 0.1 the ranker writes score min(0.3, 2·0.1) = 0.2, while
the claimed formula with k = 1 distinct matched phrase would give
0/√2 + min(0.3, 1·0.1) = 0.1 ≠ 0.2. -/
theorem C4_duplicate_phrase_boost_counterexample :
    ((searchWithHits dupPhraseSpans "\"a\" \"a\"" Option.none Option.none).map
        (fun r => (r.id, r.hits)) =
      [("span:000001",
        { tokens := [],
          phrases := [{ phrase := "a", ranges := [(0, 1)] },
                      { phrase := "a", ranges := [(0, 1)] }] })]) ∧
    (dedupKeepFirst
        ((searchWithHits dupPhraseSpans "\"a\" \"a\"" Option.none
            Option.none).flatMap
          (fun r => r.hits.phrases.map (fun p => p.phrase))) = ["a"]) ∧
    ((tfidfRankWithHits dupPhraseSpans
        (searchWithHits dupPhraseSpans "\"a\" \"a\"" Option.none Option.none)
        [] 0.1).map (fun r => r.score) = [(0.2 : ℝ)]) ∧
    (0 : ℝ) / Real.sqrt 2 + min 0.3 ((1 : ℝ) * 0.1) ≠ 0.2 := by
  refine ⟨by decide, by decide, ?_, ?_⟩
  · rw [show (tfidfRankWithHits dupPhraseSpans
          (searchWithHits dupPhraseSpans "\"a\" \"a\"" Option.none
            Option.none) [] 0.1) =
        [{ id := "span:000001", order := 0,
           score := tfidfScore dupPhraseSpans [] 0.1
             { id := "span:000001", text := "a b", meta := ⟨0⟩ }
             { id := "span:000001", order := 0, score := 0,
               hits := { tokens := [],
                         phrases := [⟨"a", [(0, 1)]⟩, ⟨"a", [(0, 1)]⟩] } },
           hits := { tokens := [],
                     phrases := [⟨"a", [(0, 1)]⟩, ⟨"a", [(0, 1)]⟩] } }]
        from rfl]
    rw [List.map_cons, List.map_nil]
    rw [tfidfScore]
    simp only [List.foldl_nil, List.length_cons, List.length_nil]
    norm_num
  · rw [zero_div, one_mul, zero_add]
    rw [min_eq_right (by norm_num : (0.1 : ℝ) ≤ 0.3)]
    norm_num

/-- An infix of the right part is an infix of an append. -/
theorem infix_append_of_right {x b : List Char} (a : List Char)
    (h : x <:+: b) : x <:+: a ++ b := by
  obtain ⟨s, t, rfl⟩ := h
  exact ⟨a ++ s, t, by simp⟩

/-- An infix of the left part is an infix of an append. -/
theorem infix_append_of_left {x a : List Char} (b : List Char)
    (h : x <:+: a) : x <:+: a ++ b := by
  obtain ⟨s, t, rfl⟩ := h
  exact ⟨s, t ++ b, by simp⟩

/-- Every element of a joined list occurs in the joined string. -/
theorem infix_joinSep (sep : String) :
    ∀ (l : List String) (x : String), x ∈ l →
      x.data <:+: (joinSep sep l).data := by
  intro l
  induction l with
  | nil => simp
  | cons a rest ih =>
    intro x hx
    match rest, hx with
    | [], hx =>
      obtain rfl : x = a := by simpa using hx
      exact List.infix_refl _
    | y :: rest', hx =>
      rcases List.mem_cons.mp hx with rfl | hx
      · rw [show joinSep sep (x :: y :: rest') =
            x ++ sep ++ joinSep sep (y :: rest') from rfl]
        rw [String.data_append, String.data_append]
        rw [List.append_assoc]
        exact infix_append_of_left _ (List.infix_refl _)
      · rw [show joinSep sep (a :: y :: rest') =
            a ++ sep ++ joinSep sep (y :: rest') from rfl]
        rw [String.data_append]
        exact infix_append_of_right _ (ih x hx)

/-- The markers of the accepted citations count up from the loop's
starting index. -/
theorem assembleAccepted_marker :
    ∀ (packs : List RetrievalPack) (docId : String) (bl : Int) (bs i t j : Nat)
      (c : String × CitationEntry),
      (assembleAccepted packs docId bl bs i t).get? j = some c →
      c.2.marker = toSuperscriptMarker (i + j + 1) := by
  intro packs
  induction packs with
  | nil => intro docId bl bs i t j c hc; simp [assembleAccepted] at hc
  | cons pack rest ih =>
    intro docId bl bs i t j c hc
    simp only [assembleAccepted] at hc
    split at hc
    · simp at hc
    · match j with
      | 0 =>
        simp only [List.get?_cons_zero, Option.some_inj] at hc
        rw [← hc]
      | j' + 1 =>
        rw [List.get?_cons_succ] at hc
        have := ih docId bl bs (i + 1)
          (t + estimateTokens (formatContextBlock pack
            (toSuperscriptMarker (i + 1)) docId)) j' c hc
        rw [this]
        congr 1
        omega

/-- The accepted citations cover a prefix of the packs, in order. -/
theorem assembleAccepted_packIds :
    ∀ (packs : List RetrievalPack) (docId : String) (bl : Int) (bs i t : Nat),
      (assembleAccepted packs docId bl bs i t).map (fun p => p.2.packId) =
        (packs.take (assembleAccepted packs docId bl bs i t).length).map
          (fun p => p.packId) := by
  intro packs
  induction packs with
  | nil => intro docId bl bs i t; simp [assembleAccepted]
  | cons pack rest ih =>
    intro docId bl bs i t
    simp only [assembleAccepted]
    split
    · simp
    · simp only [List.map_cons, List.length_cons, List.take_succ_cons]
      rw [ih docId bl bs (i + 1)
        (t + estimateTokens (formatContextBlock pack
          (toSuperscriptMarker (i + 1)) docId))]

/-- C6 (amended): assemblePrompt returns the question alone when no
packs survive; otherwise the user prompt is the question, a blank line,
the reference line listing ALL accepted citation markers joined by …,
a blank line, and the context blocks joined by blank lines; citation i
carries marker [superscript(i+1)]; citations cover a prefix of the
packs in order; and every citation marker occurs literally in the user
prompt. -/
theorem C6_prompt_assembly (options : AssemblePromptOptions) :
    (options.packs = [] →
      (assemblePrompt options).prompt.user = options.question ∧
      (assemblePrompt options).citations = []) ∧
    ((assemblePrompt options).citations = [] →
      (assemblePrompt options).prompt.user = options.question) ∧
    ((assemblePrompt options).citations =
      (promptAccepted options).map Prod.snd) ∧
    (promptAccepted options ≠ [] →
      (assemblePrompt options).prompt.user =
        options.question ++ "\n\nYou may reference " ++
          joinSep "…" (((promptAccepted options).map Prod.snd).map
            (fun c => c.marker)) ++ ".\n\n" ++
          joinSep "\n\n" ((promptAccepted options).map Prod.fst)) ∧
    (∀ (j : Nat) (c : CitationEntry),
      (assemblePrompt options).citations.get? j = some c →
      c.marker = toSuperscriptMarker (j + 1)) ∧
    ((assemblePrompt options).citations.map (fun c => c.packId) =
      (options.packs.take (assemblePrompt options).citations.length).map
        (fun p => p.packId)) ∧
    (∀ c ∈ (assemblePrompt options).citations,
      c.marker.data <:+: (assemblePrompt options).prompt.user.data) := by
  by_cases hp : options.packs.isEmpty
  · have hpacks : options.packs = [] := by simpa using hp
    have hA : promptAccepted options = [] := by
      rw [promptAccepted, hpacks]
      rfl
    have huser : (assemblePrompt options).prompt.user = options.question := by
      rw [assemblePrompt, if_pos hp]
    have hcit : (assemblePrompt options).citations = [] := by
      rw [assemblePrompt, if_pos hp]
    refine ⟨fun _ => ⟨huser, hcit⟩, fun _ => huser, ?_, ?_, ?_, ?_, ?_⟩
    · rw [hcit, hA]
      rfl
    · intro hAne
      exact absurd hA hAne
    · intro j c hc
      rw [hcit] at hc
      simp at hc
    · rw [hcit, hpacks]
      rfl
    · intro c hc
      rw [hcit] at hc
      simp at hc
  · have hcit : (assemblePrompt options).citations =
        (promptAccepted options).map Prod.snd := by
      rw [assemblePrompt, if_neg hp, promptAccepted]
    have huser : (assemblePrompt options).prompt.user =
        if !((promptAccepted options).map Prod.fst).isEmpty then
          options.question ++ "\n\nYou may reference " ++
            joinSep "…" (((promptAccepted options).map Prod.snd).map
              (fun c => c.marker)) ++ ".\n\n" ++
            joinSep "\n\n" ((promptAccepted options).map Prod.fst)
        else options.question := by
      rw [assemblePrompt, if_neg hp, promptAccepted]
    refine ⟨?_, ?_, hcit, ?_, ?_, ?_, ?_⟩
    · intro hpacks
      exact absurd (by simp [hpacks] : options.packs.isEmpty = true) hp
    · intro hcnil
      have hA : promptAccepted options = [] := by
        have := hcit ▸ hcnil
        exact List.map_eq_nil_iff.mp this
      rw [huser, hA]
      rfl
    · intro hAne
      rw [huser]
      rw [if_pos ?_]
      simp only [Bool.not_eq_true']
      rw [List.isEmpty_eq_false]
      simpa using hAne
    · intro j c hc
      rw [hcit, List.get?_map] at hc
      match hA : (promptAccepted options).get? j with
      | Option.none => rw [hA] at hc; simp at hc
      | some p =>
        rw [hA] at hc
        simp only [Option.map_some', Option.some_inj] at hc
        have := assembleAccepted_marker options.packs options.docId _ _ 0 0 j p
          (by rw [← promptAccepted]; exact hA)
        rw [← hc, this]
        congr 1
        omega
    · rw [hcit, List.map_map, List.length_map]
      have := assembleAccepted_packIds options.packs options.docId
        (maxSafeInteger - (options.headroomTokens.getD 300 : Nat))
        (estimateTokens (getSystemPrompt (options.style.getD .qa)) +
          estimateTokens (options.question ++
            "\n\nYou may reference the following context:")) 0 0
      rw [← promptAccepted] at this
      exact this
    · intro c hc
      by_cases hA : promptAccepted options = []
      · rw [hcit, hA] at hc
        simp at hc
      · have huser' := (by
          intro hAne
          rw [huser]
          rw [if_pos ?_]
          simp only [Bool.not_eq_true']
          rw [List.isEmpty_eq_false]
          simpa using hAne :
          promptAccepted options ≠ [] →
            (assemblePrompt options).prompt.user =
              options.question ++ "\n\nYou may reference " ++
                joinSep "…" (((promptAccepted options).map Prod.snd).map
                  (fun c => c.marker)) ++ ".\n\n" ++
                joinSep "\n\n" ((promptAccepted options).map Prod.fst)) hA
        rw [huser']
        rw [String.data_append]
        refine infix_append_of_left _ ?_
        rw [String.data_append]
        refine infix_append_of_left _ ?_
        rw [String.data_append]
        refine infix_append_of_right _ ?_
        refine infix_joinSep "…" _ c.marker ?_
        rw [hcit] at hc
        exact List.mem_map_of_mem (fun x => x.marker) hc

open Classical in
/-- The ranked comparator is transitive. -/
theorem scoreDescLe_trans :
    ∀ a b c : SearchResult, scoreDescLe a b → scoreDescLe b c →
      scoreDescLe a c := by
  intro a b c hab hbc
  simp only [scoreDescLe, decide_eq_true_eq] at hab hbc ⊢
  rcases hab with h1 | ⟨h1, h1o⟩
  · rcases hbc with h2 | ⟨h2, _⟩
    · exact Or.inl (lt_trans h2 h1)
    · exact Or.inl (h2 ▸ h1)
  · rcases hbc with h2 | ⟨h2, h2o⟩
    · exact Or.inl (h1 ▸ h2)
    · exact Or.inr ⟨h1.trans h2, Nat.le_trans h1o h2o⟩

open Classical in
/-- The ranked comparator is total. -/
theorem scoreDescLe_total :
    ∀ a b : SearchResult, (scoreDescLe a b || scoreDescLe b a) = true := by
  intro a b
  simp only [scoreDescLe, Bool.or_eq_true, decide_eq_true_eq]
  rcases lt_trichotomy a.score b.score with h | h | h
  · exact Or.inr (Or.inl h)
  · rcases Nat.le_total a.order b.order with ho | ho
    · exact Or.inl (Or.inr ⟨h, ho⟩)
    · exact Or.inr (Or.inr ⟨h.symm, ho⟩)
  · exact Or.inl (Or.inl h)

/-- The unranked comparator is transitive. -/
theorem orderAscLe_trans :
    ∀ a b c : SearchResult, orderAscLe a b → orderAscLe b c →
      orderAscLe a c := by
  intro a b c hab hbc
  simp only [orderAscLe, decide_eq_true_eq] at hab hbc ⊢
  exact Nat.le_trans hab hbc

/-- The unranked comparator is total. -/
theorem orderAscLe_total :
    ∀ a b : SearchResult, (orderAscLe a b || orderAscLe b a) = true := by
  intro a b
  simp only [orderAscLe, Bool.or_eq_true, decide_eq_true_eq]
  exact Nat.le_total a.order b.order

/-- takeOpt preserves Pairwise. -/
theorem takeOpt_pairwise {R : SearchResult → SearchResult → Prop}
    {l : List SearchResult} (h : l.Pairwise R) (limit : Option Nat) :
    (takeOpt limit l).Pairwise R := by
  match limit with
  | Option.none => exact h
  | some n => exact h.sublist (List.take_sublist n l)

/-- C2: when rank is tfidf or hybrid, Reader.search hands the ranker
the full candidate set (no limit at search time), sorts the ranked
results by score descending with order-ascending ties, and truncates to
the limit only afterwards; when rank is none the results are sorted by
ascending order (the limit having been applied at search time). Every
successful output is sorted accordingly. -/
theorem C2_search_ordering (spans : List Span) (query : String)
    (options : SearchOptions) :
    (options.rank = RankMode.tfidf →
      readerSearch spans query options =
        .ok (takeOpt options.limit
          ((tfidfRankWithHits (orderedSpans spans)
            (searchWithHits (orderedSpans spans) query Option.none
              options.fuzzy)
            (tokenize query) 0.1).mergeSort scoreDescLe))) ∧
    (options.rank = RankMode.hybrid →
      ∀ ranked,
        hybridRankWithHits (orderedSpans spans)
          (searchWithHits (orderedSpans spans) query Option.none
            options.fuzzy)
          (tokenize query) (embedText query) options.hybrid = .ok ranked →
        readerSearch spans query options =
          .ok (takeOpt options.limit (ranked.mergeSort scoreDescLe))) ∧
    (options.rank = RankMode.none →
      readerSearch spans query options =
        .ok ((searchWithHits (orderedSpans spans) query options.limit
          options.fuzzy).mergeSort orderAscLe)) ∧
    (∀ out, readerSearch spans query options = .ok out →
      (options.rank = RankMode.none →
        out.Pairwise fun a b => a.order ≤ b.order) ∧
      ((options.rank = RankMode.tfidf ∨ options.rank = RankMode.hybrid) →
        out.Pairwise fun a b =>
          b.score < a.score ∨ (a.score = b.score ∧ a.order ≤ b.order))) := by
  have hsortScore : ∀ l : List SearchResult,
      (l.mergeSort scoreDescLe).Pairwise fun a b =>
        b.score < a.score ∨ (a.score = b.score ∧ a.order ≤ b.order) := by
    intro l
    have h := List.sorted_mergeSort scoreDescLe_trans scoreDescLe_total l
    refine h.imp ?_
    intro a b hab
    have : decide (b.score < a.score ∨
        (a.score = b.score ∧ a.order ≤ b.order)) = true := hab
    exact of_decide_eq_true this
  have hsortOrder : ∀ l : List SearchResult,
      (l.mergeSort orderAscLe).Pairwise fun a b => a.order ≤ b.order := by
    intro l
    have h := List.sorted_mergeSort orderAscLe_trans orderAscLe_total l
    refine h.imp ?_
    intro a b hab
    exact of_decide_eq_true hab
  refine ⟨?_, ?_, ?_, ?_⟩
  · intro hr
    simp only [readerSearch, hr]
    rfl
  · intro hr ranked hranked
    simp only [readerSearch, hr, or_true, if_true]
    rw [hranked]
    rfl
  · intro hr
    simp only [readerSearch, hr]
    rfl
  · intro out hout
    match hr : options.rank with
    | RankMode.tfidf =>
      refine ⟨(fun h => nomatch h), fun _ => ?_⟩
      simp only [readerSearch, hr, true_or, if_true] at hout
      cases hout
      exact takeOpt_pairwise (hsortScore _) _
    | RankMode.hybrid =>
      refine ⟨(fun h => nomatch h), fun _ => ?_⟩
      simp only [readerSearch, hr, or_true, if_true] at hout
      match hh : hybridRankWithHits (orderedSpans spans)
          (searchWithHits (orderedSpans spans) query Option.none
            options.fuzzy)
          (tokenize query) (embedText query) options.hybrid with
      | Except.error e => rw [hh] at hout; cases hout
      | Except.ok ranked =>
        rw [hh, exceptOkBind] at hout
        cases hout
        exact takeOpt_pairwise (hsortScore _) _
    | RankMode.none =>
      refine ⟨fun _ => ?_,
        fun h => h.elim (fun h1 => nomatch h1) (fun h1 => nomatch h1)⟩
      simp only [readerSearch, hr] at hout
      cases hout
      exact hsortOrder _

set_option maxRecDepth 20000 in
/-- C6 counterexample: with three accepted packs the reference line is
"You may reference [¹]…[²]…[³]." — every marker joined by …, not the
claimed first-through-last form "You may reference [¹]…[³].". -/
theorem C6_reference_line_all_markers_counterexample :
    ((assemblePrompt c6DemoOptions).prompt.user =
      "Q?\n\nYou may reference [¹]…[²]…[³].\n\n[¹]\nDoc: corpus:abc\n---\nalpha\n\n[²]\nDoc: corpus:abc\n---\nbeta\n\n[³]\nDoc: corpus:abc\n---\ngamma") ∧
    ((assemblePrompt c6DemoOptions).prompt.user ≠
      "Q?\n\nYou may reference [¹]…[³].\n\n[¹]\nDoc: corpus:abc\n---\nalpha\n\n[²]\nDoc: corpus:abc\n---\nbeta\n\n[³]\nDoc: corpus:abc\n---\ngamma") := by
  constructor <;> decide

set_option maxRecDepth 10000 in
/-- C9: at token "word" and dimension 0, the demo embedder's
per-dimension value (hash % 10000)/5000 − 1 is −1047/625 = −1.6752,
strictly below −1: the 32-bit rolling hash of "word:0" is negative and
the JS remainder keeps the dividend's sign, so the value leaves the
claimed interval [−1, 1] (which the function's own doc comment also
asserts). -/
theorem C9_hash_value_below_minus_one :
    deterministicHash32 "word" 0 = -782093376 ∧
    deterministicHashValue "word" 0 = -1047 / 625 ∧
    deterministicHashValue "word" 0 < -1 := by
  have h32 : deterministicHash32 "word" 0 = -782093376 := by decide
  have hmod : Int.tmod (-782093376) 10000 = -3376 := by decide
  have hval : deterministicHashValue "word" 0 = -1047 / 625 := by
    rw [deterministicHashValue, h32, hmod]
    norm_num
  refine ⟨h32, hval, ?_⟩
  rw [hval]
  norm_num

end SRE
